import Mathlib

/-!
A shallow embedding of the btor2mlir repository fragments under verification:

* `lib/Dialect/ebpf/Transforms/ResolveMemory.cpp` — the Address/Scalar
  Resolution pass (`replaceLoadWithLoadAddress`, `ResolveMemoryPass`).
* `lib/Dialect/Btor/Transforms/BtorLiveness.cpp` — the Array-Write Liveness
  pass (`resultIsLiveAfter`, `usedInITEPattern`, `moveReadOpsBefore`,
  `replaceWithWriteInPlace`, `BtorLivenessPass`).
* the eBPF-to-MLIR lifter (`Deserialize::collectBlocks`,
  `Deserialize::buildFunctionBody`, `Deserialize::createMLIR`,
  `Deserialize::createJmpOp`, `Deserialize::buildXDPFunction`).

MLIR `Value`s are modelled as natural-number ids; operations are records of a
result id, an operation kind and a list of operand ids.  C++ `assert` is
modelled as `Option`: a function returns `none` exactly when an assertion in
the source would fire (the translation unit is compiled with asserts enabled).
-/

namespace EbpfResolve

/-- Operation kinds of the `ebpf` dialect as discriminated by
`ResolveMemory.cpp`.  The width is in bytes: `load 1` is `ebpf::Load8Op`,
`load 2` is `ebpf::Load16Op`, `load 4` is `ebpf::Load32Op` and `load 8` is
`ebpf::LoadOp`; similarly for stores.  `loadAddr` is `ebpf::LoadAddrOp`.
Every operation kind outside the load/store families that the pass
type-switches on is collapsed into `other` (the pass never inspects more of
such an operation than its identity). -/
inductive EKind where
  | load (w : Nat)
  | loadAddr (w : Nat)
  | store (w : Nat)
  | other (tag : Nat)
deriving DecidableEq, Repr

/-- An MLIR operation: a result value id, a kind, and operand value ids.
For the load/store/loadAddr families the first operand is `lhs()` (the base
address) as in the `ebpf` dialect. -/
structure EOp where
  res : Nat
  kind : EKind
  args : List Nat
deriving DecidableEq, Repr

/-- `ResolveMemory.cpp:29-75`: classification of a single use of the load
result `res` whose owner is `owner`, producing the pair
`(expectAddr, expectInt)`.  For owners in the load/store families the source
compares `temp.lhs() == op.getResult()`; every other owner takes the final
`else` branch, which sets `expectInt = true`. -/
def useFlags (res : Nat) (owner : EOp) : Bool × Bool :=
  match owner.kind with
  | .store _ => (owner.args.head? == some res, owner.args.head? != some res)
  | .load _ => (owner.args.head? == some res, owner.args.head? != some res)
  | _ => (false, true)

/-- `ResolveMemory.cpp:29-80`: the loop over `op.getResult().getUses()`.
`uses` lists the owner of each use (one entry per using operand slot), in
use-list order; `replaceWithMem` and `keepAsIs` are the loop accumulators
(initially `true` and `false`).  Returns `some keepAsIs` when the loop
finishes and `none` when one of the two in-loop assertions fires.  The
second assertion, `assert((replaceWithMem && !expectInt) || (!replaceWithMem
&& expectInt))` (line 79), is checked after the accumulator updates, exactly
as in the source. -/
def classifyUses (res : Nat) : List EOp → Bool → Bool → Option Bool
  | [], _, keepAsIs => some keepAsIs
  | owner :: rest, replaceWithMem, keepAsIs =>
    let ea := (useFlags res owner).1
    let ei := (useFlags res owner).2
    if (ea && !ei) || (!ea && ei) then
      let rwm := ea && replaceWithMem
      let keep := ei || keepAsIs
      if (rwm && !ei) || (!rwm && ei) then
        classifyUses res rest rwm keep
      else none
    else none

/-- Outcome of `replaceLoadWithLoadAddress` when no assertion fires:
`keptAsIs` is the `return failure()` path (the load is left unmodified),
`replaced` is the `return success()` path (a `LoadAddrOp` was built and all
uses rewired to it). -/
inductive ResolveOutcome where
  | keptAsIs
  | replaced
deriving DecidableEq, Repr

/-- `ResolveMemory.cpp:24-98`, `replaceLoadWithLoadAddress`.  `none` models
an assertion failure: the entry assertion `assert(!op.getResult().use_empty())`
(line 28), the two in-loop assertions, or `assert(isa<ebpf::LoadOp>(op))`
(line 84), which fires whenever the all-address path is reached for a
`Load8Op`/`Load16Op`/`Load32Op` (widths 1, 2 and 4): only the 8-byte
`ebpf::LoadOp` is actually replaced. -/
def replaceLoadWithLoadAddress (op : EOp) (uses : List EOp) : Option ResolveOutcome :=
  if uses = [] then none
  else
    match classifyUses op.res uses true false with
    | none => none
    | some true => some .keptAsIs
    | some false =>
      match op.kind with
      | .load 8 => some .replaced
      | _ => none

/-- A basic block: formal parameter value ids and the operation list. -/
structure EBlock where
  params : List Nat
  ops : List EOp
deriving DecidableEq, Repr

/-- A function: its region's list of basic blocks. -/
structure EFunc where
  blocks : List EBlock
deriving DecidableEq, Repr

/-- A module: the operations of its top-level block, each a `FuncOp`
(the pass asserts both of the two expected top-level operations are
`FuncOp`s; the model keeps only that case). -/
structure EModule where
  funcs : List EFunc
deriving DecidableEq, Repr

/-- Whether an operation is one of the four generic loads the pass
type-switches on (`ebpf::LoadOp`, `Load32Op`, `Load16Op`, `Load8Op`). -/
def isGenericLoad (o : EOp) : Bool :=
  match o.kind with
  | .load _ => true
  | _ => false

/-- The uses of value `res` inside one operation, one entry per operand slot
holding `res`. -/
def opUses (res : Nat) (o : EOp) : List EOp :=
  (o.args.filter (fun a => a = res)).map (fun _ => o)

/-- The uses of value `res` across a list of operations, in program order. -/
def opsUses (res : Nat) (l : List EOp) : List EOp :=
  l.foldr (fun o acc => opUses res o ++ acc) []

/-- The uses of value `res` across a list of blocks, in program order. -/
def blocksUses (res : Nat) (bs : List EBlock) : List EOp :=
  bs.foldr (fun b acc => opsUses res b.ops ++ acc) []

/-- `Value::replaceAllUsesWith`: rewire every operand equal to `oldV` to
`newV` in one operation. -/
def substOp (oldV newV : Nat) (o : EOp) : EOp :=
  { o with args := o.args.map (fun a => if a = oldV then newV else a) }

/-- `replaceAllUsesWith` over a block (block parameters are definitions, not
uses, so only operand lists change). -/
def substBlock (oldV newV : Nat) (b : EBlock) : EBlock :=
  { b with ops := b.ops.map (substOp oldV newV) }

/-- Number of generic loads in an operation list (termination measure for the
pass traversal: replacing a load inserts one `LoadAddrOp`, which is not a
generic load). -/
def countLoads (l : List EOp) : Nat :=
  l.countP (fun o => isGenericLoad o)

theorem isGenericLoad_substOp (a b : Nat) (o : EOp) :
    isGenericLoad (substOp a b o) = isGenericLoad o := rfl

theorem countLoads_map_substOp (a b : Nat) (l : List EOp) :
    countLoads (l.map (substOp a b)) = countLoads l := by
  unfold countLoads
  rw [List.countP_map]
  rfl

theorem countLoads_cons (o : EOp) (l : List EOp) :
    countLoads (o :: l) = countLoads l + (if isGenericLoad o then 1 else 0) := by
  simp [countLoads, List.countP_cons]

/-- `ResolveMemory.cpp:118-132`: the walk over the operations of one block of
`main`, with the rewrite applied in place.  The state is a zipper:
`prev` are the fully processed earlier blocks, `done` the already visited
operations of the current block, the first list argument the operations still
to visit, `rest` the blocks not yet visited; `nid` is the next fresh value id.
When a load is replaced, the freshly created `LoadAddrOp` is inserted directly
after it (`setInsertionPointAfterValue`), hence at the head of the remaining
operations, where the iteration visits it next (it hits the `Default` case
and is skipped); every use of the old result anywhere in the function is
rewired, and the original load is *not* erased.  Returns `none` when an
assertion inside `replaceLoadWithLoadAddress` fires.  MLIR's use-list
iteration order is implementation-internal; it is modelled here as program
order — the whole-pass facts proved below concern loads with a single use,
for which the order is immaterial, while the order-sensitive claim about
mixed uses is settled on `replaceLoadWithLoadAddress` itself over an
explicit use list. -/
def processOps (prev : List EBlock) (done : List EOp) :
    List EOp → List EBlock → Nat →
    Option (List EBlock × List EOp × List EBlock × Nat)
  | [], rest, nid => some (prev, done, rest, nid)
  | o :: todo, rest, nid =>
    if h : isGenericLoad o then
      let uses := blocksUses o.res prev ++ opsUses o.res (done ++ o :: todo) ++
        blocksUses o.res rest
      match replaceLoadWithLoadAddress o uses with
      | none => none
      | some .keptAsIs => processOps prev (done ++ [o]) todo rest nid
      | some .replaced =>
        let newOp : EOp := { res := nid, kind := .loadAddr 8, args := o.args }
        processOps (prev.map (substBlock o.res nid))
          ((done.map (substOp o.res nid)) ++ [substOp o.res nid o])
          (newOp :: todo.map (substOp o.res nid))
          (rest.map (substBlock o.res nid)) (nid + 1)
    else
      processOps prev (done ++ [o]) todo rest nid
termination_by todo rest nid => 2 * countLoads todo + todo.length
decreasing_by
  · simp only [countLoads_cons, List.length_cons]
    split <;> omega
  · have hn : ∀ r as, isGenericLoad { res := r, kind := EKind.loadAddr 8, args := as } = false :=
      fun _ _ => rfl
    simp [countLoads_cons, countLoads_map_substOp, h, hn]
  · simp only [countLoads_cons, List.length_cons]
    split <;> omega

theorem substBlock_params (a b : Nat) (bl : EBlock) :
    (substBlock a b bl).params = bl.params := rfl

/-- The traversal of one block neither adds nor removes other basic blocks
and never touches a block's formal parameter list: use rewiring only rewrites
operand lists. -/
theorem processOps_params (prev : List EBlock) (done : List EOp)
    (todo : List EOp) (rest : List EBlock) (nid : Nat)
    (out : List EBlock × List EOp × List EBlock × Nat)
    (h : processOps prev done todo rest nid = some out) :
    out.1.map EBlock.params = prev.map EBlock.params ∧
    out.2.2.1.map EBlock.params = rest.map EBlock.params := by
  induction prev, done, todo, rest, nid using processOps.induct generalizing out with
  | case1 prev done rest nid =>
    rw [processOps] at h
    cases h
    exact ⟨rfl, rfl⟩
  | case2 prev done o todo rest nid hload uses hnone =>
    rw [processOps] at h
    simp only [hload, dif_pos] at h
    unfold uses at hnone
    rw [hnone] at h
    cases h
  | case3 prev done o todo rest nid hload uses hkeep ih =>
    rw [processOps] at h
    simp only [hload, dif_pos] at h
    unfold uses at hkeep
    rw [hkeep] at h
    exact ih out h
  | case4 prev done o todo rest nid hload uses hrepl newOp ih =>
    rw [processOps] at h
    simp only [hload, dif_pos] at h
    unfold uses at hrepl
    rw [hrepl] at h
    have := ih out h
    simpa [List.map_map, Function.comp, substBlock_params] using this
  | case5 prev done o todo rest nid hload ih =>
    rw [processOps] at h
    simp only [hload, dif_neg] at h
    exact ih out h

theorem processOps_rest_length (prev : List EBlock) (done : List EOp)
    (todo : List EOp) (rest : List EBlock) (nid : Nat)
    (out : List EBlock × List EOp × List EBlock × Nat)
    (h : processOps prev done todo rest nid = some out) :
    out.2.2.1.length = rest.length := by
  have := (processOps_params prev done todo rest nid out h).2
  have h2 := congrArg List.length this
  simpa using h2

/-- `ResolveMemory.cpp:118-133`: the walk over all blocks of the region of
`main`, applying the per-operation type-switch to each block in turn. -/
def processBlocks : List EBlock → List EBlock → Nat → Option (List EBlock × Nat)
  | prev, [], nid => some (prev, nid)
  | prev, b :: bs, nid =>
    match hpo : processOps prev [] b.ops bs nid with
    | none => none
    | some (prevOut, opsOut, bsOut, nidOut) =>
      processBlocks (prevOut ++ [{ params := b.params, ops := opsOut }]) bsOut nidOut
termination_by _ bs _ => bs.length
decreasing_by
  have := processOps_rest_length prev [] b.ops bs nid _ hpo
  simp_all

/-- The largest value id occurring in an operation. -/
def opMaxId (o : EOp) : Nat := o.args.foldr max o.res

/-- The largest value id occurring in a block. -/
def blockMaxId (b : EBlock) : Nat :=
  b.ops.foldr (fun o acc => max (opMaxId o) acc) (b.params.foldr max 0)

/-- The largest value id occurring in a function. -/
def funcMaxId (f : EFunc) : Nat :=
  f.blocks.foldr (fun b acc => max (blockMaxId b) acc) 0

/-- A value id unused anywhere in the module, used to model MLIR's allocation
of fresh `Value`s for the created `LoadAddrOp`s. -/
def moduleFreshId (m : EModule) : Nat :=
  1 + m.funcs.foldr (fun f acc => max (funcMaxId f) acc) 0

/-- `ResolveMemory.cpp:104-134`, `ResolveMemoryPass::runOnOperation`.
The pass asserts that the module's top block holds exactly two operations,
both `FuncOp`s (`xdp_entry` followed by `main`); it *erases* `xdp_entry`
(line 114) and then rewrites the body of `main`.  `none` models a failing
assertion — in particular `assert(topBlock.getOperations().size() == 2)`
fires whenever the module does not hold exactly two functions. -/
def runResolveMemory (m : EModule) : Option EModule :=
  match m.funcs with
  | [_xdpEntry, mainFn] =>
    match processBlocks [] mainFn.blocks (moduleFreshId m) with
    | none => none
    | some (blocksOut, _) => some { funcs := [{ blocks := blocksOut }] }
  | _ => none

/-- The whole-module pass keeps every block of `main` (in order) and never
touches a block's formal parameter list. -/
theorem processBlocks_params (prev bs : List EBlock) (nid : Nat)
    (out : List EBlock × Nat) (h : processBlocks prev bs nid = some out) :
    out.1.map EBlock.params = prev.map EBlock.params ++ bs.map EBlock.params := by
  induction prev, bs, nid using processBlocks.induct generalizing out with
  | case1 prev nid =>
    rw [processBlocks] at h
    cases h
    simp
  | case2 prev b bs nid hnone =>
    rw [processBlocks] at h
    rw [hnone] at h
    cases h
  | case3 prev b bs nid prevOut opsOut bsOut nidOut hpo ih =>
    rw [processBlocks] at h
    rw [hpo] at h
    have hbs := ih out h
    have hparams := processOps_params prev [] b.ops bs nid _ hpo
    simp only [List.map_append, List.map_cons] at hbs ⊢
    rw [hbs, hparams.1, hparams.2]
    simp

/-- A generic 8-byte load `%10 = ebpf.load(%1, %2)` (an `ebpf::LoadOp`). -/
def demoLoad8 : EOp := { res := 10, kind := .load 8, args := [1, 2] }

/-- A store whose base address (`lhs()`) is the load result `%10`: an
address-expected use. -/
def demoAddrUse : EOp := { res := 11, kind := .store 8, args := [10, 2, 3] }

/-- A store that uses the load result `%10` only as the stored value (its
base is `%3`): an integer-expected use. -/
def demoIntUse : EOp := { res := 13, kind := .store 8, args := [3, 2, 10] }

/-- A 4-byte generic load `%10 = ebpf.load32(%1, %2)` (an `ebpf::Load32Op`). -/
def demoLoad4 : EOp := { res := 10, kind := .load 4, args := [1, 2] }

/-- The `LoadAddrOp` built for `demoLoad8` by a successful resolution. -/
def demoNewAddr : EOp := { res := 12, kind := .loadAddr 8, args := [1, 2] }

/-- `demoAddrUse` after its base operand is rewired to the new `LoadAddrOp`. -/
def demoAddrUseRw : EOp := { res := 11, kind := .store 8, args := [12, 2, 3] }

/-- The leftover `xdp_entry` function (already inlined into `main`, body
empty), as the pass expects to find it. -/
def demoXdpFunc : EFunc := { blocks := [{ params := [], ops := [] }] }

/-- The single block of `main`: a generic load whose only use is the base
address of a store. -/
def demoMainBlock : EBlock := { params := [1, 2, 3], ops := [demoLoad8, demoAddrUse] }

/-- The `main` function of the demo module. -/
def demoMainFunc : EFunc := { blocks := [demoMainBlock] }

/-- A module in the exact shape `ResolveMemoryPass` asserts: two functions,
`xdp_entry` then `main`. -/
def demoModule : EModule := { funcs := [demoXdpFunc, demoMainFunc] }

/-- `demoMainBlock` after the pass: the original generic load is still there
(the source never erases it), followed by the new `LoadAddrOp` and the
rewired store. -/
def demoOutBlock : EBlock := { params := [1, 2, 3], ops := [demoLoad8, demoNewAddr, demoAddrUseRw] }

/-- The module produced by one run of the pass on `demoModule`: `xdp_entry`
has been erased and `main` rewritten. -/
def demoModuleOut : EModule := { funcs := [{ blocks := [demoOutBlock] }] }

theorem processOps_demo :
    processOps [] [] [demoLoad8, demoAddrUse] [] 12 =
      some ([], [demoLoad8, demoNewAddr, demoAddrUseRw], [], 13) := by
  simp [processOps, demoLoad8, demoAddrUse, demoNewAddr, demoAddrUseRw, isGenericLoad,
    blocksUses, opsUses, opUses, replaceLoadWithLoadAddress, classifyUses, useFlags,
    substOp, substBlock]

theorem processBlocks_demo :
    processBlocks [] [demoMainBlock] 12 = some ([demoOutBlock], 13) := by
  rw [processBlocks]
  split
  · next heq =>
    simp only [demoMainBlock] at heq
    rw [processOps_demo] at heq
    cases heq
  · next prevOut opsOut bsOut nidOut heq =>
    simp only [demoMainBlock] at heq
    rw [processOps_demo] at heq
    cases heq
    rw [processBlocks]
    simp [demoMainBlock, demoOutBlock]

/-- One run of the Resolution pass on the demo module succeeds and produces
`demoModuleOut`. -/
theorem runResolveMemory_demo : runResolveMemory demoModule = some demoModuleOut := by
  have hfresh : moduleFreshId demoModule = 12 := by
    simp [moduleFreshId, demoModule, demoXdpFunc, demoMainFunc, demoMainBlock, funcMaxId,
      blockMaxId, opMaxId, demoLoad8, demoAddrUse]
  rw [show runResolveMemory demoModule =
    (match processBlocks [] demoMainFunc.blocks (moduleFreshId demoModule) with
      | none => none
      | some (blocksOut, _) => some { funcs := [{ blocks := blocksOut }] } : Option EModule) from rfl]
  rw [hfresh, show demoMainFunc.blocks = [demoMainBlock] from rfl, processBlocks_demo]
  rfl

/-- **C1** (code-bug exhibit).  The claim says a generic load with at least
one integer-expected use is always left unmodified, *regardless of the order
in which the uses occur*.  The code disagrees: when an address-expected use
is visited *after* an integer-expected one, the loop invariant assertion
`assert((replaceWithMem && !expectInt) || (!replaceWithMem && expectInt))`
(`ResolveMemory.cpp:79`) fails — at that iteration `replaceWithMem` is
already `false` (an integer use was seen) while `expectInt` is `false` (the
current use is an address use), so both disjuncts are false and the pass
aborts instead of returning `failure()`.  With the opposite visit order the
load is indeed kept as is. -/
theorem claim1_integer_then_address_use_order_hits_assert :
    replaceLoadWithLoadAddress demoLoad8 [demoIntUse, demoAddrUse] = none ∧
    replaceLoadWithLoadAddress demoLoad8 [demoAddrUse, demoIntUse] =
      some ResolveOutcome.keptAsIs := ⟨rfl, rfl⟩

/-- **C3** (code-bug exhibit).  The claim says a generic load of *any* width
(1, 2, 4 or 8 bytes) all of whose uses are address-expected is replaced by an
address-producing variant and the original discarded.  The code disagrees
twice: (a) for the widths 1, 2 and 4 the replacement body is guarded by
`assert(isa<ebpf::LoadOp>(op))` (`ResolveMemory.cpp:84`), which fires because
only the 8-byte load is `ebpf::LoadOp` — shown here for a `Load32Op` whose
single use is a store base; (b) even for the 8-byte load the original
operation is never erased: after the pass runs on `demoModule`, the original
generic load `demoLoad8` is still present in every block of the output
(`demoOutBlock` keeps it in front of the new `LoadAddrOp`). -/
theorem claim3_narrow_width_asserts_and_original_load_retained :
    replaceLoadWithLoadAddress demoLoad4 [demoAddrUse] = none ∧
    runResolveMemory demoModule = some demoModuleOut ∧
    ∀ f ∈ demoModuleOut.funcs, ∀ b ∈ f.blocks, demoLoad8 ∈ b.ops :=
  ⟨rfl, runResolveMemory_demo, by decide⟩

/-- **C4** (code-bug exhibit).  The claim says running the Resolution pass
twice yields the same IR as running it once.  The code disagrees: the first
run erases `xdp_entry` (leaving one function) and keeps the replaced load
with zero uses, so a second run fails its very first assertion
`assert(topBlock.getOperations().size() == 2)` (`ResolveMemory.cpp:108`) —
modelled as `none` — instead of being a no-op (and even past that assertion,
the stale load would trip `assert(!op.getResult().use_empty())`, line 28). -/
theorem claim4_second_run_aborts_instead_of_noop :
    runResolveMemory demoModule = some demoModuleOut ∧
    runResolveMemory demoModuleOut = none :=
  ⟨runResolveMemory_demo, rfl⟩

/-- **C9** (counterexample).  The claim says no function created during
lifting is destroyed by a pass.  The Resolution pass erases the `xdp_entry`
function (`ResolveMemory.cpp:114`): the demo module enters with two functions
and leaves with one. -/
theorem claim9_counterexample_xdp_entry_erased :
    demoModule.funcs.length = 2 ∧
    (runResolveMemory demoModule).map (fun m => m.funcs.length) = some 1 := by
  refine ⟨rfl, ?_⟩
  rw [runResolveMemory_demo]
  rfl

end EbpfResolve

namespace BtorLiveness

/-- Operation kinds of the `btor` dialect as discriminated by
`BtorLiveness.cpp`: `btor::WriteOp`, `btor::WriteInPlaceOp`, `btor::ReadOp`,
`btor::IteOp`, `mlir::BranchOp`; everything else (whose name the pass only
ever compares against those) is `other`. -/
inductive BKind where
  | write
  | writeInPlace
  | read
  | iteOp
  | brOp
  | other (tag : Nat)
deriving DecidableEq, Repr

/-- A `btor` operation: result value id, kind, operand value ids.
`write` operands are `[value, base, index]` (so `getOperand(1)` is the base
array); `iteOp` operands are `[condition, true_value, false_value]`. -/
structure BOp where
  res : Nat
  kind : BKind
  args : List Nat
deriving DecidableEq, Repr

/-- The uses of value `v` in an operation list, one entry per operand slot
holding `v`, in program order. -/
def usesIn (l : List BOp) (v : Nat) : List BOp :=
  l.foldr (fun o acc => (o.args.filter (fun a => a = v)).map (fun _ => o) ++ acc) []

/-- `Value::getDefiningOp`: the operation defining `v`, searching both blocks
of the function; `none` for a block argument. -/
def definingOp (ops1 ops2 : List BOp) (v : Nat) : Option BOp :=
  (ops1 ++ ops2).find? (fun o => o.res = v)

/-- `BtorLiveness.cpp:38-43`, `opsMatch(Value&, StringLiteral)`: `false` for
a block argument, otherwise compare the defining operation's name. -/
def opsMatchVal (ops1 ops2 : List BOp) (v : Nat) (k : BKind) : Bool :=
  match definingOp ops1 ops2 v with
  | none => false
  | some o => o.kind = k

/-- Index of the first occurrence of `u` in an operation list (operations are
compared by identity, i.e. their full record). -/
def idxOfOp (u : BOp) : List BOp → Option Nat
  | [] => none
  | o :: rest => if o = u then some 0 else (idxOfOp u rest).map (fun i => i + 1)

theorem mem_of_idxOfOp_eq_some {u : BOp} {l : List BOp} {i : Nat}
    (h : idxOfOp u l = some i) : u ∈ l := by
  induction l generalizing i with
  | nil => cases h
  | cons o rest ih =>
    unfold idxOfOp at h
    by_cases ho : o = u
    · simp [ho]
    · rw [if_neg ho] at h
      cases hr : idxOfOp u rest with
      | none => rw [hr] at h; cases h
      | some j => exact List.mem_cons_of_mem o (ih hr)

/-- `Operation::isBeforeInBlock` on the write's block, as an `Option`:
`some (i < j)` when both operations are in the block, `none` when the
queried operation is not (MLIR asserts that both operations share a block). -/
def isBeforeOpt (ops2 : List BOp) (u tgt : BOp) : Option Bool :=
  match idxOfOp u ops2, idxOfOp tgt ops2 with
  | some i, some j => some (decide (i < j))
  | _, _ => none

theorem mem_of_isBeforeOpt_eq_some {ops2 : List BOp} {u tgt : BOp} {b : Bool}
    (h : isBeforeOpt ops2 u tgt = some b) : u ∈ ops2 := by
  unfold isBeforeOpt at h
  cases hu : idxOfOp u ops2 with
  | none => rw [hu] at h; cases h
  | some i => exact mem_of_idxOfOp_eq_some hu

/-- Remove the first occurrence of `u` (by identity), as
`Operation::remove` does when a node is detached from its block. -/
def removeFirst (u : BOp) : List BOp → List BOp
  | [] => []
  | o :: rest => if o = u then rest else o :: removeFirst u rest

/-- Insert `u` immediately before the first occurrence of `tgt`. -/
def insertBefore (u tgt : BOp) : List BOp → List BOp
  | [] => [u]
  | o :: rest => if o = tgt then u :: o :: rest else o :: insertBefore u tgt rest

/-- `Operation::moveBefore(tgt)`: detach `u` and reinsert it directly before
`tgt`. -/
def moveOpBefore (u tgt : BOp) (ops : List BOp) : List BOp :=
  insertBefore u tgt (removeFirst u ops)

/-- `BtorLiveness.cpp:49-61`, the loop of `moveReadOpsBefore`: iterate over
the array's use list (computed once — moving operations does not change use
chains), threading the mutated block.  Returns `some (true, ops)` for
`success()`, `some (false, ops)` for `failure()` — note the operations
already moved stay moved — and `none` when `isBeforeInBlock` is queried for
an operation outside the block. -/
def moveReadOpsLoop (tgt : BOp) : List BOp → List BOp → Option (Bool × List BOp)
  | [], ops2 => some (true, ops2)
  | u :: rest, ops2 =>
    if u = tgt then moveReadOpsLoop tgt rest ops2
    else
      match isBeforeOpt ops2 u tgt with
      | none => none
      | some true => moveReadOpsLoop tgt rest ops2
      | some false =>
        if u.kind = BKind.read then
          moveReadOpsLoop tgt rest (moveOpBefore u tgt ops2)
        else some (false, ops2)

/-- `BtorLiveness.cpp:49-61`, `moveReadOpsBefore(array, opPtr)`: the use
list of `array` is gathered from both blocks and the loop above is run over
it.  MLIR's use-chain order is implementation-internal (it depends on the
order uses were created); it is modelled here as program order, one
realizable order among those the atomicity claim quantifies over. -/
def moveReadOpsBefore (ops1 ops2 : List BOp) (array : Nat) (tgt : BOp) :
    Option (Bool × List BOp) :=
  moveReadOpsLoop tgt (usesIn ops1 array ++ usesIn ops2 array) ops2

/-- `BtorLiveness.cpp:67-86`, `usedInITEPattern`.  `none` models a firing
assertion: the ite result must have exactly one use, that use must be a
`mlir::BranchOp`, the matched branch value must be a `btor::WriteOp` with a
single use, and the opposite branch value must be the write's base array
(`getOperand(1)`).  On the matched idiom the pass moves the reads of the
pre-write array before the ite. -/
def usedInITEPattern (ops1 ops2 : List BOp) (ite : BOp) : Option (Bool × List BOp) :=
  match usesIn ops1 ite.res ++ usesIn ops2 ite.res with
  | [useOp] =>
    if useOp.kind = BKind.brOp then
      match ite.args with
      | [_, trueValue, falseValue] =>
        if opsMatchVal ops1 ops2 trueValue BKind.write then
          if (usesIn ops1 trueValue ++ usesIn ops2 trueValue).length = 1 then
            match definingOp ops1 ops2 trueValue with
            | some wOp =>
              if wOp.args.get? 1 = some falseValue then
                moveReadOpsBefore ops1 ops2 falseValue ite
              else none
            | none => none
          else none
        else if opsMatchVal ops1 ops2 falseValue BKind.write then
          if (usesIn ops1 falseValue ++ usesIn ops2 falseValue).length = 1 then
            match definingOp ops1 ops2 falseValue with
            | some wOp =>
              if wOp.args.get? 1 = some trueValue then
                moveReadOpsBefore ops1 ops2 trueValue ite
              else none
            | none => none
          else none
        else none
      | _ => none
    else none
  | _ => none

/-- `BtorLiveness.cpp:118-137`, `resultIsLiveAfter`.  The write's result must
not be used outside its block (assertion), must have exactly one use
(otherwise `failure()`), and that use is dispatched by kind: a direct branch
is `success()`, an ite goes through the idiom recognizer, anything else is
`failure()`. -/
def resultIsLiveAfter (ops1 ops2 : List BOp) (w : BOp) : Option (Bool × List BOp) :=
  if usesIn ops1 w.res ≠ [] then none
  else
    match usesIn ops2 w.res with
    | [useOp] =>
      match useOp.kind with
      | BKind.brOp => some (true, ops2)
      | BKind.iteOp => usedInITEPattern ops1 ops2 useOp
      | _ => some (false, ops2)
    | _ => some (false, ops2)

/-- Rewire every operand equal to `oldV` to `newV` in one operation
(`Value::replaceAllUsesWith`). -/
def substOp (oldV newV : Nat) (o : BOp) : BOp :=
  { o with args := o.args.map (fun a => if a = oldV then newV else a) }

/-- Insert `newOp` immediately after the first operation whose result is `r`
(`OpBuilder::setInsertionPointAfterValue`). -/
def insertAfterRes (newOp : BOp) (r : Nat) : List BOp → List BOp
  | [] => [newOp]
  | o :: rest => if o.res = r then o :: newOp :: rest else o :: insertAfterRes newOp r rest

/-- `BtorLiveness.cpp:21-36`, `replaceWithWriteInPlace`.  When the liveness
test succeeds, a `btor::WriteInPlaceOp` with the same operands is created
right after the write, every use of the old result is rewired to it, and —
as in the source — the original write is *not* erased.  The `LogicalResult`
is returned to the caller together with the mutated block. -/
def replaceWithWriteInPlace (ops1 ops2 : List BOp) (w : BOp) (nid : Nat) :
    Option (Bool × List BOp × Nat) :=
  match resultIsLiveAfter ops1 ops2 w with
  | none => none
  | some (false, ops2a) => some (false, ops2a, nid)
  | some (true, ops2a) =>
    let newOp : BOp := { res := nid, kind := BKind.writeInPlace, args := w.args }
    some (true, (insertAfterRes newOp w.res ops2a).map (substOp w.res nid), nid + 1)

theorem insertBefore_perm (u tgt : BOp) (l : List BOp) :
    (insertBefore u tgt l).Perm (u :: l) := by
  induction l with
  | nil => exact List.Perm.refl _
  | cons o rest ih =>
    unfold insertBefore
    by_cases h : o = tgt
    · rw [if_pos h]
    · rw [if_neg h]
      exact (ih.cons o).trans (List.Perm.swap u o rest)

theorem removeFirst_perm (u : BOp) (l : List BOp) (h : u ∈ l) :
    l.Perm (u :: removeFirst u l) := by
  induction l with
  | nil => cases h
  | cons o rest ih =>
    unfold removeFirst
    by_cases ho : o = u
    · rw [if_pos ho, ho]
    · rw [if_neg ho]
      have hm : u ∈ rest := by
        cases List.mem_cons.mp h with
        | inl he => exact absurd he.symm ho
        | inr hr => exact hr
      exact ((ih hm).cons o).trans (List.Perm.swap u o (removeFirst u rest))

/-- `moveBefore` only reorders the block: the resulting operation list is a
permutation of the previous one. -/
theorem moveOpBefore_perm (u tgt : BOp) (l : List BOp) (h : u ∈ l) :
    (moveOpBefore u tgt l).Perm l :=
  (insertBefore_perm u tgt (removeFirst u l)).trans (removeFirst_perm u l h).symm

/-- Whatever `moveReadOpsBefore`'s loop returns — `success()` or
`failure()` — the block it hands back is a permutation of the block it was
given: operations are only ever repositioned, never created or destroyed. -/
theorem moveReadOpsLoop_perm (tgt : BOp) (users : List BOp) (ops2 : List BOp)
    (b : Bool) (opsOut : List BOp)
    (h : moveReadOpsLoop tgt users ops2 = some (b, opsOut)) : opsOut.Perm ops2 := by
  induction users generalizing ops2 with
  | nil =>
    unfold moveReadOpsLoop at h
    cases h
    exact List.Perm.refl _
  | cons u rest ih =>
    unfold moveReadOpsLoop at h
    by_cases hu : u = tgt
    · rw [if_pos hu] at h
      exact ih ops2 h
    · rw [if_neg hu] at h
      cases hib : isBeforeOpt ops2 u tgt with
      | none => rw [hib] at h; cases h
      | some before =>
        rw [hib] at h
        cases before with
        | true => exact ih ops2 h
        | false =>
          by_cases hk : u.kind = BKind.read
          · rw [if_pos hk] at h
            have hmem : u ∈ ops2 := mem_of_isBeforeOpt_eq_some hib
            exact (ih _ h).trans (moveOpBefore_perm u tgt ops2 hmem)
          · rw [if_neg hk] at h
            cases h
            exact List.Perm.refl _

theorem moveReadOpsBefore_perm (ops1 ops2 : List BOp) (array : Nat) (tgt : BOp)
    (b : Bool) (opsOut : List BOp)
    (h : moveReadOpsBefore ops1 ops2 array tgt = some (b, opsOut)) : opsOut.Perm ops2 :=
  moveReadOpsLoop_perm tgt _ ops2 b opsOut h

theorem usedInITEPattern_perm (ops1 ops2 : List BOp) (ite : BOp)
    (b : Bool) (opsOut : List BOp)
    (h : usedInITEPattern ops1 ops2 ite = some (b, opsOut)) : opsOut.Perm ops2 := by
  unfold usedInITEPattern at h
  repeat' split at h
  all_goals first
    | exact moveReadOpsBefore_perm _ _ _ _ _ _ h
    | cases h

theorem resultIsLiveAfter_perm (ops1 ops2 : List BOp) (w : BOp)
    (b : Bool) (opsOut : List BOp)
    (h : resultIsLiveAfter ops1 ops2 w = some (b, opsOut)) : opsOut.Perm ops2 := by
  unfold resultIsLiveAfter at h
  split at h
  · cases h
  · split at h
    · split at h
      · cases h
        exact List.Perm.refl _
      · exact usedInITEPattern_perm _ _ _ _ _ h
      · cases h
        exact List.Perm.refl _
    · cases h
      exact List.Perm.refl _

/-- A basic block of the processed function. -/
structure BBlock where
  params : List Nat
  ops : List BOp
deriving DecidableEq, Repr

/-- The function the pass digs out of the module (`BtorLiveness.cpp:90-94`):
its region's list of basic blocks. -/
structure BFunc where
  blocks : List BBlock
deriving DecidableEq, Repr

/-- The largest value id occurring in the function, plus one: fresh ids for
the created `WriteInPlaceOp`s. -/
def bFreshId (f : BFunc) : Nat :=
  1 + f.blocks.foldr
    (fun b acc =>
      max (b.ops.foldr (fun o a => max (o.args.foldr max o.res) a) (b.params.foldr max 0)) acc)
    0

/-- The operation following `c` in the block, in current block order: the
MLIR iterator sits on the current operation's list node and steps to its
successor. -/
def nextAfterOp (c : BOp) : List BOp → Option BOp
  | [] => none
  | o :: rest => if o = c then rest.head? else nextAfterOp c rest

/-- The iterator position: `none` before the first operation. -/
def nextAfter (cur : Option BOp) (ops : List BOp) : Option BOp :=
  match cur with
  | none => ops.head?
  | some c => nextAfterOp c ops

/-- Result of the per-block iteration. -/
inductive LoopOut where
  | finished (ops2 : List BOp) (nid : Nat)
  | aborted
  | fuelOut
deriving DecidableEq, Repr

/-- `BtorLiveness.cpp:98-106`: the loop over the operations of the second
block.  Each iteration advances the iterator past one operation; `WriteOp`s
go through `replaceWithWriteInPlace` and the resulting `LogicalResult` is
checked by `assert(status.succeeded())` (line 105), so a *declined* site
(`failure()`) aborts the pass — modelled as `.aborted` — exactly like a
firing assertion inside the helpers.  The `fuel` argument only bounds the
structural recursion; every iteration moves the cursor forward and each
processed write inserts at most one operation, and every run below is shown
to finish or abort, never to run out of fuel. -/
def runLoop (ops1 : List BOp) : Nat → List BOp → Nat → Option BOp → LoopOut
  | 0, _, _, _ => .fuelOut
  | fuel + 1, ops2, nid, cur =>
    match nextAfter cur ops2 with
    | none => .finished ops2 nid
    | some o =>
      match o.kind with
      | BKind.write =>
        match replaceWithWriteInPlace ops1 ops2 o nid with
        | none => .aborted
        | some (status, ops2a, nida) =>
          if status then runLoop ops1 fuel ops2a nida (some (substOp o.res nid o))
          else .aborted
      | _ => runLoop ops1 fuel ops2 nid (some o)

/-- Result of `BtorLivenessPass::runOnOperation`. -/
inductive RunResult where
  | ok (f : BFunc)
  | aborted
  | fuelOut
deriving DecidableEq, Repr

/-- `BtorLiveness.cpp:88-107`, `BtorLivenessPass::runOnOperation`: the pass
asserts the processed function's region has exactly two blocks
(`assert(regions.getBlocks().size() == 2)`, line 95) and iterates over the
operations of the second one. -/
def runBtorLiveness (f : BFunc) : RunResult :=
  match f.blocks with
  | [b1, b2] =>
    match runLoop b1.ops (2 * b2.ops.length + 2) b2.ops (bFreshId f) none with
    | .finished ops2 _ => .ok { blocks := [b1, { params := b2.params, ops := ops2 }] }
    | .aborted => .aborted
    | .fuelOut => .fuelOut
  | _ => .aborted

/-- The liveness pass never creates or destroys blocks and never touches a
block's formal parameter list: a successful run returns the same two blocks,
with only the second block's operation list rewritten. -/
theorem runBtorLiveness_params (f fOut : BFunc)
    (h : runBtorLiveness f = RunResult.ok fOut) :
    fOut.blocks.map BBlock.params = f.blocks.map BBlock.params := by
  unfold runBtorLiveness at h
  split at h
  · next b1 b2 hblocks =>
    split at h
    · cases h
      rw [hblocks]
      rfl
    · cases h
    · cases h
  · cases h

/-- The second block of the demo function for the declined-site scenario:
`%10 = btor.write %3, %1[%2]` whose result has *two* uses, then a
terminating branch. -/
def demoWrite2 : BOp := { res := 10, kind := BKind.write, args := [3, 1, 2] }

/-- First extra consumer of the write result. -/
def demoUseA : BOp := { res := 11, kind := BKind.other 0, args := [10] }

/-- Second extra consumer of the write result. -/
def demoUseB : BOp := { res := 12, kind := BKind.other 1, args := [10] }

/-- The block terminator of the declined-site scenario. -/
def demoBr2 : BOp := { res := 13, kind := BKind.brOp, args := [11] }

/-- The function's entry block (the pass only iterates the second block). -/
def demoEntryBlock : BBlock := { params := [20], ops := [] }

/-- Second block of the declined-site demo function. -/
def demoC2Block : BBlock := { params := [1, 2, 3, 4], ops := [demoWrite2, demoUseA, demoUseB, demoBr2] }

/-- A two-block function containing a write that fails the liveness test
(two uses of its result). -/
def demoC2Func : BFunc := { blocks := [demoEntryBlock, demoC2Block] }

/-- **C2** (code-bug exhibit).  The claim says a failed liveness test is
surfaced as a boolean/variant result and never propagated as a hard failure,
with processing of sibling sites continuing.  Indeed `resultIsLiveAfter`
returns `failure()` as a value for a write with two uses (first conjunct) —
but the per-site caller `BtorLivenessPass::runOnOperation` then executes
`assert(status.succeeded())` (`BtorLiveness.cpp:105`), so the whole pass
aborts on the first declined site instead of continuing (second conjunct). -/
theorem claim2_declined_site_aborts_pass :
    resultIsLiveAfter [] demoC2Block.ops demoWrite2 = some (false, demoC2Block.ops) ∧
    runBtorLiveness demoC2Func = RunResult.aborted := ⟨rfl, rfl⟩

/-- The write of the select-idiom scenario: `%10 = btor.write %3, %1[%2]`. -/
def demoWrite8 : BOp := { res := 10, kind := BKind.write, args := [3, 1, 2] }

/-- `%11 = btor.ite %4, %10, %1` — the recognized idiom, selecting between
the written array and the pre-write array `%1`. -/
def demoIte8 : BOp := { res := 11, kind := BKind.iteOp, args := [4, 10, 1] }

/-- A read of the pre-write array `%1` placed *after* the select. -/
def demoRead8 : BOp := { res := 12, kind := BKind.read, args := [1, 2] }

/-- A non-read consumer of the pre-write array `%1`, also after the select:
this is what makes the idiom check fail — but only after `demoRead8` has
already been moved. -/
def demoOther8 : BOp := { res := 13, kind := BKind.other 0, args := [1] }

/-- Terminator consuming the select result. -/
def demoBr8 : BOp := { res := 14, kind := BKind.brOp, args := [11] }

/-- Block contents before the rewrite attempt. -/
def demoC8Ops : List BOp := [demoWrite8, demoIte8, demoRead8, demoOther8, demoBr8]

/-- Block contents after the *failed* rewrite attempt: `demoRead8` has been
moved before the select even though the attempt was declined. -/
def demoC8Moved : List BOp := [demoWrite8, demoRead8, demoIte8, demoOther8, demoBr8]

/-- `%14 = br(%10)`: the write result's single use is a direct branch, so the
liveness test succeeds. -/
def demoBrOk : BOp := { res := 14, kind := BKind.brOp, args := [10] }

/-- Block contents of the *successful* attempt scenario. -/
def demoC8OkOps : List BOp := [demoWrite8, demoBrOk]

/-- The in-place write created for `demoWrite8` with fresh id 15. -/
def demoWip15 : BOp := { res := 15, kind := BKind.writeInPlace, args := [3, 1, 2] }

/-- The branch after rewiring its operand to the in-place write. -/
def demoBrOkRw : BOp := { res := 14, kind := BKind.brOp, args := [15] }

/-- Block contents after the successful attempt: the in-place write sits
directly after the original write, the branch is rewired — and the original
write is still there. -/
def demoC8OkOut : List BOp := [demoWrite8, demoWip15, demoBrOkRw]

/-- **C8** (counterexample).  The claim says every rewrite attempt either
*fully applies* (replace, rewire all uses, discard the original) or leaves
the IR exactly as it was — in particular that a select-idiom check failing
partway through moves or modifies nothing.  Both disjuncts fail on the code.
First conjunct pair: on `demoC8Ops` the attempt is declined (`failure()` is
returned) yet the block has changed — the read of the base array was moved
before the select prior to the loop encountering the non-read use that
caused the failure.  Second conjunct pair: on `demoC8OkOps` the attempt
succeeds, yet the original write is *not* discarded (`replaceWithWriteInPlace`
never erases it), so the successful attempt is not a full application
either. -/
theorem claim8_counterexample_failed_attempt_moves_read :
    (replaceWithWriteInPlace [] demoC8Ops demoWrite8 15 = some (false, demoC8Moved, 15) ∧
     demoC8Moved ≠ demoC8Ops) ∧
    (replaceWithWriteInPlace [] demoC8OkOps demoWrite8 15 = some (true, demoC8OkOut, 16) ∧
     demoWrite8 ∈ demoC8OkOut) := ⟨⟨rfl, by decide⟩, ⟨rfl, by decide⟩⟩

/-- A declined attempt by the liveness pass neither creates nor destroys nor
modifies any operation and consumes no value id: the block it leaves behind
is a permutation of the block it found (reads may have been repositioned),
with the target write still present and the number of in-place writes
unchanged. -/
theorem declinedAttempt_only_reorders
    (ops1 ops2 : List BOp) (w : BOp) (nid : Nat) (opsOut : List BOp) (nidOut : Nat)
    (h : replaceWithWriteInPlace ops1 ops2 w nid = some (false, opsOut, nidOut)) :
    opsOut.Perm ops2 ∧ nidOut = nid ∧
    (w ∈ opsOut ↔ w ∈ ops2) ∧
    opsOut.countP (fun o => o.kind = BKind.writeInPlace) =
      ops2.countP (fun o => o.kind = BKind.writeInPlace) := by
  unfold replaceWithWriteInPlace at h
  cases hlive : resultIsLiveAfter ops1 ops2 w with
  | none => rw [hlive] at h; cases h
  | some pair =>
    rw [hlive] at h
    obtain ⟨b, ops2a⟩ := pair
    cases b with
    | false =>
      cases h
      have hperm := resultIsLiveAfter_perm ops1 ops2 w false opsOut hlive
      exact ⟨hperm, rfl, ⟨fun hw => hperm.mem_iff.mp hw, fun hw => hperm.mem_iff.mpr hw⟩,
        hperm.countP_eq _⟩
    | true => cases h

theorem mem_insertAfterRes_of_mem (u : BOp) (r : Nat) (l : List BOp) (a : BOp)
    (h : a ∈ l) : a ∈ insertAfterRes u r l := by
  induction l with
  | nil => cases h
  | cons o rest ih =>
    unfold insertAfterRes
    by_cases ho : o.res = r
    · rw [if_pos ho]
      cases List.mem_cons.mp h with
      | inl he => rw [he]; exact List.mem_cons_self o _
      | inr hr => exact List.mem_cons_of_mem o (List.mem_cons_of_mem u hr)
    · rw [if_neg ho]
      cases List.mem_cons.mp h with
      | inl he => rw [he]; exact List.mem_cons_self o _
      | inr hr => exact List.mem_cons_of_mem o (ih hr)

theorem self_mem_insertAfterRes (u : BOp) (r : Nat) (l : List BOp) :
    u ∈ insertAfterRes u r l := by
  induction l with
  | nil => exact List.mem_cons_self u []
  | cons o rest ih =>
    unfold insertAfterRes
    by_cases ho : o.res = r
    · rw [if_pos ho]
      exact List.mem_cons_of_mem o (List.mem_cons_self u rest)
    · rw [if_neg ho]
      exact List.mem_cons_of_mem o ih

theorem length_insertAfterRes (u : BOp) (r : Nat) (l : List BOp) :
    (insertAfterRes u r l).length = l.length + 1 := by
  induction l with
  | nil => rfl
  | cons o rest ih =>
    unfold insertAfterRes
    by_cases ho : o.res = r
    · rw [if_pos ho]
      rfl
    · rw [if_neg ho]
      simp [ih]

theorem substOp_eq_of_not_mem (oldV newV : Nat) (o : BOp) (h : oldV ∉ o.args) :
    substOp oldV newV o = o := by
  unfold substOp
  have hargs : o.args.map (fun a => if a = oldV then newV else a) = o.args := by
    conv_rhs => rw [← List.map_id o.args]
    apply List.map_congr_left
    intro a ha
    have hne : ¬ a = oldV := fun he => h (he ▸ ha)
    rw [if_neg hne]
    rfl
  rw [hargs]

theorem not_mem_args_substOp (oldV newV : Nat) (o : BOp) (hne : newV ≠ oldV) :
    oldV ∉ (substOp oldV newV o).args := by
  intro hmem
  unfold substOp at hmem
  obtain ⟨a, _, hfa⟩ := List.mem_map.mp hmem
  by_cases ha : a = oldV
  · rw [if_pos ha] at hfa
    exact hne hfa
  · rw [if_neg ha] at hfa
    exact ha hfa

/-- A successful attempt by the liveness pass inserts the `WriteInPlaceOp`
(carrying the write's operands) directly after the write, rewires every use
of the old result to it, allocates exactly one value id — and does *not*
discard the original write, which stays in the block (the block grows by
one). -/
theorem successfulAttempt_shape (ops1 ops2 : List BOp) (w : BOp) (nid : Nat)
    (opsOut : List BOp) (nidOut : Nat)
    (hw : w ∈ ops2) (hssa : w.res ∉ w.args) (hfresh : nid ≠ w.res)
    (h : replaceWithWriteInPlace ops1 ops2 w nid = some (true, opsOut, nidOut)) :
    nidOut = nid + 1 ∧ w ∈ opsOut ∧
    ({ res := nid, kind := BKind.writeInPlace, args := w.args } : BOp) ∈ opsOut ∧
    (∀ o ∈ opsOut, w.res ∉ o.args) ∧
    opsOut.length = ops2.length + 1 := by
  unfold replaceWithWriteInPlace at h
  cases hlive : resultIsLiveAfter ops1 ops2 w with
  | none => rw [hlive] at h; cases h
  | some pair =>
    rw [hlive] at h
    obtain ⟨b, ops2a⟩ := pair
    cases b with
    | false => cases h
    | true =>
      cases h
      have hperm : ops2a.Perm ops2 := resultIsLiveAfter_perm ops1 ops2 w true ops2a hlive
      refine ⟨rfl, ?_, ?_, ?_, ?_⟩
      · have hw2 : w ∈ ops2a := hperm.mem_iff.mpr hw
        exact List.mem_map.mpr
          ⟨w, mem_insertAfterRes_of_mem _ w.res ops2a w hw2,
            substOp_eq_of_not_mem w.res nid w hssa⟩
      · exact List.mem_map.mpr
          ⟨{ res := nid, kind := BKind.writeInPlace, args := w.args },
            self_mem_insertAfterRes _ w.res ops2a,
            substOp_eq_of_not_mem w.res nid _ hssa⟩
      · intro o ho
        obtain ⟨p, _, hpe⟩ := List.mem_map.mp ho
        rw [← hpe]
        exact not_mem_args_substOp w.res nid p hfresh
      · rw [List.length_map, length_insertAfterRes, hperm.length_eq]


end BtorLiveness

/-- A function with an empty second block: the liveness pass finds nothing to
rewrite and finishes successfully. -/
def demoQuietFunc : BtorLiveness.BFunc :=
  { blocks := [BtorLiveness.demoEntryBlock, { params := [7], ops := [] }] }

/-- **C9** (amended).  Rewrite passes only add or replace individual
operations inside the function they process: neither pass changes the number
of basic blocks or any block's parameter arity of that function, and the
liveness pass destroys nothing — but the Resolution pass *does* erase the
`xdp_entry` function from the module (two top-level functions become one),
so "no function created during lifting is destroyed by a pass" fails for it. -/
theorem claim9_amended_block_structure_preserved_but_xdp_erased :
    (∀ (xdp mainFn : EbpfResolve.EFunc) (m2 : EbpfResolve.EModule),
        EbpfResolve.runResolveMemory { funcs := [xdp, mainFn] } = some m2 →
        ∃ f2, m2.funcs = [f2] ∧
          f2.blocks.map EbpfResolve.EBlock.params =
            mainFn.blocks.map EbpfResolve.EBlock.params) ∧
    (∀ (f fOut : BtorLiveness.BFunc),
        BtorLiveness.runBtorLiveness f = BtorLiveness.RunResult.ok fOut →
        fOut.blocks.map BtorLiveness.BBlock.params =
          f.blocks.map BtorLiveness.BBlock.params) := by
  constructor
  · intro xdp mainFn m2 h
    have h2 : (match EbpfResolve.processBlocks [] mainFn.blocks
          (EbpfResolve.moduleFreshId { funcs := [xdp, mainFn] }) with
        | none => none
        | some (blocksOut, _) =>
          some { funcs := [{ blocks := blocksOut }] } : Option EbpfResolve.EModule) =
        some m2 := h
    split at h2
    · cases h2
    · next blocksOut nidOut heq =>
      cases h2
      refine ⟨{ blocks := blocksOut }, rfl, ?_⟩
      have := EbpfResolve.processBlocks_params [] mainFn.blocks _ _ heq
      simpa using this
  · exact BtorLiveness.runBtorLiveness_params

/-- Witness for the amended C9 theorem: the Resolution pass applied to the
demo module and the liveness pass applied to a quiet function both preserve
block count and parameter arities of the processed function. -/
theorem claim9_amended_witness :
    (∃ f2, EbpfResolve.demoModuleOut.funcs = [f2] ∧
        f2.blocks.map EbpfResolve.EBlock.params =
          EbpfResolve.demoMainFunc.blocks.map EbpfResolve.EBlock.params) ∧
    (BtorLiveness.BFunc.blocks demoQuietFunc).map BtorLiveness.BBlock.params =
      (BtorLiveness.BFunc.blocks demoQuietFunc).map BtorLiveness.BBlock.params :=
  ⟨claim9_amended_block_structure_preserved_but_xdp_erased.1 EbpfResolve.demoXdpFunc
      EbpfResolve.demoMainFunc EbpfResolve.demoModuleOut EbpfResolve.runResolveMemory_demo,
    claim9_amended_block_structure_preserved_but_xdp_erased.2 demoQuietFunc demoQuietFunc rfl⟩

theorem ebpf_substOp_eq_of_not_mem (oldV newV : Nat) (o : EbpfResolve.EOp)
    (h : oldV ∉ o.args) : EbpfResolve.substOp oldV newV o = o := by
  unfold EbpfResolve.substOp
  have hargs : o.args.map (fun a => if a = oldV then newV else a) = o.args := by
    conv_rhs => rw [← List.map_id o.args]
    apply List.map_congr_left
    intro a ha
    have hne : ¬ a = oldV := fun he => h (he ▸ ha)
    rw [if_neg hne]
    rfl
  rw [hargs]

/-- **C8** (amended).  Every rewrite attempt by either pass is a per-site
decision that never discards the original operation.  Part (a): a declined
attempt by the Array-Write Liveness pass creates, destroys and modifies no
operation and consumes no value id — the block is a permutation of its
former self (read operations visited before the failing use may already have
been moved in front of the select), with the target write still present and
the number of in-place writes unchanged.  Part (b): a successful attempt by
the liveness pass inserts the `WriteInPlaceOp` carrying the write's operands
directly after the write, rewires every use of the old result, allocates one
value id, and leaves the original write in place (the block grows by one —
the original is *not* discarded).  Part (c): a declined attempt by the
Address/Scalar Resolution pass changes nothing at all — the traversal
continues on an identical state, the cursor merely moving past the load.
Part (d): a successful attempt by the resolution pass inserts the
`LoadAddrOp` carrying the load's operands directly after the load, rewires
every use everywhere, allocates one value id, and leaves the original load
in place unchanged (it is *not* discarded). -/
theorem claim8_amended_rewrite_attempt_contract :
    (∀ (ops1 ops2 : List BtorLiveness.BOp) (w : BtorLiveness.BOp) (nid : Nat)
        (opsOut : List BtorLiveness.BOp) (nidOut : Nat),
      BtorLiveness.replaceWithWriteInPlace ops1 ops2 w nid = some (false, opsOut, nidOut) →
      opsOut.Perm ops2 ∧ nidOut = nid ∧ (w ∈ opsOut ↔ w ∈ ops2) ∧
        opsOut.countP (fun o => o.kind = BtorLiveness.BKind.writeInPlace) =
          ops2.countP (fun o => o.kind = BtorLiveness.BKind.writeInPlace)) ∧
    (∀ (ops1 ops2 : List BtorLiveness.BOp) (w : BtorLiveness.BOp) (nid : Nat)
        (opsOut : List BtorLiveness.BOp) (nidOut : Nat),
      w ∈ ops2 → w.res ∉ w.args → nid ≠ w.res →
      BtorLiveness.replaceWithWriteInPlace ops1 ops2 w nid = some (true, opsOut, nidOut) →
      nidOut = nid + 1 ∧ w ∈ opsOut ∧
        ({ res := nid, kind := BtorLiveness.BKind.writeInPlace,
           args := w.args } : BtorLiveness.BOp) ∈ opsOut ∧
        (∀ o ∈ opsOut, w.res ∉ o.args) ∧ opsOut.length = ops2.length + 1) ∧
    (∀ (prev : List EbpfResolve.EBlock) (done : List EbpfResolve.EOp)
        (o : EbpfResolve.EOp) (todo : List EbpfResolve.EOp)
        (rest : List EbpfResolve.EBlock) (nid : Nat),
      EbpfResolve.isGenericLoad o = true →
      EbpfResolve.replaceLoadWithLoadAddress o
          (EbpfResolve.blocksUses o.res prev ++
            EbpfResolve.opsUses o.res (done ++ o :: todo) ++
            EbpfResolve.blocksUses o.res rest) =
        some EbpfResolve.ResolveOutcome.keptAsIs →
      EbpfResolve.processOps prev done (o :: todo) rest nid =
        EbpfResolve.processOps prev (done ++ [o]) todo rest nid) ∧
    (∀ (prev : List EbpfResolve.EBlock) (done : List EbpfResolve.EOp)
        (o : EbpfResolve.EOp) (todo : List EbpfResolve.EOp)
        (rest : List EbpfResolve.EBlock) (nid : Nat),
      EbpfResolve.isGenericLoad o = true → o.res ∉ o.args →
      EbpfResolve.replaceLoadWithLoadAddress o
          (EbpfResolve.blocksUses o.res prev ++
            EbpfResolve.opsUses o.res (done ++ o :: todo) ++
            EbpfResolve.blocksUses o.res rest) =
        some EbpfResolve.ResolveOutcome.replaced →
      EbpfResolve.processOps prev done (o :: todo) rest nid =
        EbpfResolve.processOps (prev.map (EbpfResolve.substBlock o.res nid))
          (done.map (EbpfResolve.substOp o.res nid) ++ [o])
          ({ res := nid, kind := EbpfResolve.EKind.loadAddr 8,
             args := o.args } :: todo.map (EbpfResolve.substOp o.res nid))
          (rest.map (EbpfResolve.substBlock o.res nid)) (nid + 1)) := by
  refine ⟨?_, ?_, ?_, ?_⟩
  · exact fun ops1 ops2 w nid opsOut nidOut h =>
      BtorLiveness.declinedAttempt_only_reorders ops1 ops2 w nid opsOut nidOut h
  · exact fun ops1 ops2 w nid opsOut nidOut hw hssa hfresh h =>
      BtorLiveness.successfulAttempt_shape ops1 ops2 w nid opsOut nidOut hw hssa hfresh h
  · intro prev done o todo rest nid hl hkeep
    rw [EbpfResolve.processOps]
    simp only [hl, dif_pos]
    rw [hkeep]
  · intro prev done o todo rest nid hl hssa hrepl
    rw [EbpfResolve.processOps]
    simp only [hl, dif_pos]
    rw [hrepl, ebpf_substOp_eq_of_not_mem o.res nid o hssa]

/-- Witness for the amended C8 contract, exercising all four parts at
concrete inputs: the declined liveness attempt on `demoC8Ops`, the
successful liveness attempt on `demoC8OkOps`, a declined resolution attempt
on a load with an integer-expected use, and the successful resolution
attempt of the demo module's load. -/
theorem claim8_amended_contract_witness :
    (BtorLiveness.demoC8Moved.Perm BtorLiveness.demoC8Ops ∧ 15 = 15 ∧
      (BtorLiveness.demoWrite8 ∈ BtorLiveness.demoC8Moved ↔
        BtorLiveness.demoWrite8 ∈ BtorLiveness.demoC8Ops) ∧
      BtorLiveness.demoC8Moved.countP
          (fun o => o.kind = BtorLiveness.BKind.writeInPlace) =
        BtorLiveness.demoC8Ops.countP
          (fun o => o.kind = BtorLiveness.BKind.writeInPlace)) ∧
    (16 = 15 + 1 ∧ BtorLiveness.demoWrite8 ∈ BtorLiveness.demoC8OkOut ∧
      ({ res := 15, kind := BtorLiveness.BKind.writeInPlace,
         args := BtorLiveness.demoWrite8.args } : BtorLiveness.BOp) ∈
        BtorLiveness.demoC8OkOut ∧
      (∀ o ∈ BtorLiveness.demoC8OkOut, BtorLiveness.demoWrite8.res ∉ o.args) ∧
      BtorLiveness.demoC8OkOut.length = BtorLiveness.demoC8OkOps.length + 1) ∧
    (EbpfResolve.processOps [] [] [EbpfResolve.demoLoad8, EbpfResolve.demoIntUse] [] 12 =
      EbpfResolve.processOps [] [EbpfResolve.demoLoad8] [EbpfResolve.demoIntUse] [] 12) ∧
    (EbpfResolve.processOps [] [] [EbpfResolve.demoLoad8, EbpfResolve.demoAddrUse] [] 12 =
      EbpfResolve.processOps [] [EbpfResolve.demoLoad8]
        [EbpfResolve.demoNewAddr, EbpfResolve.demoAddrUseRw] [] 13) :=
  ⟨claim8_amended_rewrite_attempt_contract.1 [] BtorLiveness.demoC8Ops
      BtorLiveness.demoWrite8 15 BtorLiveness.demoC8Moved 15 rfl,
    claim8_amended_rewrite_attempt_contract.2.1 [] BtorLiveness.demoC8OkOps
      BtorLiveness.demoWrite8 15 BtorLiveness.demoC8OkOut 16 (by decide) (by decide)
      (by decide) rfl,
    claim8_amended_rewrite_attempt_contract.2.2.1 [] [] EbpfResolve.demoLoad8
      [EbpfResolve.demoIntUse] [] 12 (by decide) (by decide),
    claim8_amended_rewrite_attempt_contract.2.2.2 [] [] EbpfResolve.demoLoad8
      [EbpfResolve.demoAddrUse] [] 12 (by decide) (by decide) (by decide)⟩

namespace Lifter

/-- A `label_t`: the half-open offset range `[lfrom, lto)` of an instruction
(the C++ fields are named `from`/`to`; `from` is a Lean keyword). -/
structure Label where
  lfrom : Nat
  lto : Nat
deriving DecidableEq, Repr

/-- `Bin::Op`, the binary ALU operation selector of the decoded instruction
set (`createBinaryOp` dispatches on it). -/
inductive BinAluOp where
  | MOV | MOVSX8 | MOVSX16 | MOVSX32 | ADD | SUB | MUL | UDIV | SDIV
  | UMOD | SMOD | OR | AND | LSH | RSH | ARSH | XOR
deriving DecidableEq, Repr

/-- `Un::Op`, the unary ALU operation selector (`createUnaryOp`). -/
inductive UnAluOp where
  | BE16 | BE32 | BE64 | LE16 | LE32 | LE64 | SWAP16 | SWAP32 | SWAP64 | NEG
deriving DecidableEq, Repr

/-- A register-or-immediate operand (`std::variant<Imm, Reg>`). -/
inductive RegImm where
  | reg (r : Nat)
  | imm (v : Int)
deriving DecidableEq, Repr

/-- The decoded instruction variant consumed by `Deserialize::createMLIR`,
kind for kind.  Payloads irrelevant to the translated fragment (conditions,
call targets, debug payloads) are dropped or left opaque. -/
inductive Instruction where
  | Undefined
  | Bin (op : BinAluOp) (dst : Nat) (v : RegImm)
  | Un (op : UnAluOp) (dst : Nat)
  | LoadMapFd (dst : Nat) (mapfd : Int)
  | Call
  | Callx
  | Exit
  | Jmp (cond : Option Nat) (target : Label)
  | Mem (isLoad : Bool) (width : Nat) (basereg : Nat) (offset : Int) (value : RegImm)
  | Packet
  | Assume
  | Atomic
  | Assert
  | IncrementLoopCounter
deriving DecidableEq, Repr

/-- A labeled instruction (the `line_info` component of the decoder's triple
is opaque and unused by the translated code). -/
abbrev LabeledInstruction := Label × Instruction

/-- An instruction section (`InstructionSeq`). -/
abbrev InstructionSeq := List LabeledInstruction

/-- The kinds of MLIR operations the lifter emits. -/
inductive MKind where
  | binIns (op : BinAluOp)
  | unIns (op : UnAluOp)
  | constIns (v : Int)
  | loadIns (w : Nat)
  | storeIns (w : Nat)
  | loadMapIns
  | brIns (target : Nat)
  | retIns
deriving DecidableEq, Repr

/-- An emitted MLIR operation. -/
structure MOp where
  res : Nat
  kind : MKind
  args : List Nat
deriving DecidableEq, Repr

/-- `mightHaveTrait<OpTrait::IsTerminator>`: among the emitted kinds, only
branches and returns are terminators. -/
def isTerminator (o : MOp) : Bool :=
  match o.kind with
  | .brIns _ => true
  | .retIns => true
  | _ => false

/-- A basic block: formal parameters (one value id per register) and its
operations. -/
structure MBlock where
  params : List Nat
  ops : List MOp
deriving DecidableEq, Repr

/-- `m_ebpfRegisters`: the instruction set's register count. -/
def numRegisters : Nat := 11

/-- The `Deserialize` state threaded through translation: the decoded
sections, the abstract register file `m_registers` (value ids), the block
index `m_jumpBlocks` (offset to owning block), the current insertion block,
`m_lastBlock`, the next fresh value id, and everything printed to
`std::cerr` (the observable diagnostic channel). -/
structure DState where
  sections : List InstructionSeq
  registers : List Nat
  jumpBlocks : List (Nat × MBlock)
  curBlock : Nat
  lastBlock : Nat
  nextId : Nat
  diags : List String
deriving DecidableEq, Repr

/-- `m_jumpBlocks.at(off)` / `m_jumpBlocks.contains(off)`. -/
def lookupBlock (bs : List (Nat × MBlock)) (off : Nat) : Option MBlock :=
  (bs.find? (fun e => e.1 = off)).map (fun e => e.2)

/-- Append one operation to the block registered at `off`. -/
def updateBlockOps (bs : List (Nat × MBlock)) (off : Nat) (op : MOp) : List (Nat × MBlock) :=
  bs.map (fun e => if e.1 = off then (e.1, { e.2 with ops := e.2.ops ++ [op] }) else e)

/-- Emit one operation at the current insertion point (the end of
`curBlock`), returning the new state and the operation's result value. -/
def appendToCur (st : DState) (k : MKind) (args : List Nat) : DState × Nat :=
  let op : MOp := { res := st.nextId, kind := k, args := args }
  ({ st with jumpBlocks := updateBlockOps st.jumpBlocks st.curBlock op,
             nextId := st.nextId + 1 }, st.nextId)

/-- `m_registers.at(r)` (a read): `std::vector::at` throws on an
out-of-range index, modelled as `none`. -/
def getReg (st : DState) (r : Nat) : Option Nat := st.registers.get? r

/-- `m_registers.at(r) = v` (a write). -/
def setReg (st : DState) (r v : Nat) : Option DState :=
  if r < st.registers.length then some { st with registers := st.registers.set r v }
  else none

/-- `Deserialize::buildConstantOp`: materialize an immediate as a constant
operation at the insertion point. -/
def buildConstantOp (st : DState) (v : Int) : DState × Nat :=
  appendToCur st (.constIns v) []

/-- Append a line to `std::cerr`. -/
def pushDiag (st : DState) (s : String) : DState :=
  { st with diags := st.diags ++ [s] }

/-- `ebpfToebpfIRTranslation.cpp:72-154`, `Deserialize::createBinaryOp`:
look up the destination register's value, materialize the right operand
(constant for an immediate, register value otherwise), emit the operation
selected by the ALU opcode, and store the result back into the destination
register slot. -/
def createBinaryOp (st : DState) (op : BinAluOp) (dst : Nat) (v : RegImm) : Option DState :=
  match getReg st dst with
  | none => none
  | some lhs =>
    let stRhs : Option (DState × Nat) :=
      match v with
      | .imm i => some (buildConstantOp st i)
      | .reg r => (getReg st r).map (fun rv => (st, rv))
    match stRhs with
    | none => none
    | some (st1, rhs) =>
      let (st2, res) := appendToCur st1 (.binIns op) [lhs, rhs]
      setReg st2 dst res

/-- `ebpfToebpfIRTranslation.cpp:33-70`, `Deserialize::createUnaryOp`. -/
def createUnaryOp (st : DState) (op : UnAluOp) (dst : Nat) : Option DState :=
  match getReg st dst with
  | none => none
  | some rhs =>
    let (st1, res) := appendToCur st (.unIns op) [rhs]
    setReg st1 dst res

/-- Modelled from the spec: `Deserialize::buildStoreOp` is defined in the
translation header, which is not under src/.  Per the spec's lowering table,
a store "emits a width-tagged store operation over (base-register value,
constant offset, value register); no register is updated". -/
def buildStoreOp (st : DState) (width : Nat) (base offv : Nat) (value : RegImm) :
    Option DState :=
  match value with
  | .reg vr =>
    match getReg st vr with
    | none => none
    | some v => some (appendToCur st (.storeIns width) [base, offv, v]).1
  | .imm i =>
    let (st1, c) := buildConstantOp st i
    some (appendToCur st1 (.storeIns width) [base, offv, c]).1

/-- `ebpfToebpfIRTranslation.cpp:156-192`, `Deserialize::createMemOp`:
materialize the constant offset, then dispatch on the access width (1, 2, 4
or 8 bytes) and on load/store; a load's result is stored into the register
named by the value operand (`std::get<Reg>(mem.value)` throws for an
immediate, modelled `none`).  A width outside the four cases leaves the C++
`res` a null `Value` (the decoder never produces one); it is modelled as an
abort. -/
def createMemOp (st : DState) (isLoad : Bool) (width : Nat) (basereg : Nat)
    (offset : Int) (value : RegImm) : Option DState :=
  let (st1, offv) := buildConstantOp st offset
  match getReg st1 basereg with
  | none => none
  | some base =>
    if width = 1 ∨ width = 2 ∨ width = 4 ∨ width = 8 then
      if isLoad then
        let (st2, res) := appendToCur st1 (.loadIns width) [base, offv]
        match value with
        | .reg vr => setReg st2 vr res
        | .imm _ => none
      else
        buildStoreOp st1 width base offv value
    else none

/-- `ebpfToebpfIRTranslation.cpp:194-200`, `Deserialize::createLoadMapOp`:
materialize the descriptor id, emit a map-load combining it with the
destination register's current value, overwrite that register. -/
def createLoadMapOp (st : DState) (dst : Nat) (mapfd : Int) : Option DState :=
  let (st1, mapv) := buildConstantOp st mapfd
  match getReg st1 dst with
  | none => none
  | some cur =>
    let (st2, res) := appendToCur st1 .loadMapIns [cur, mapv]
    setReg st2 dst res

/-- Create the block owning `off` (with one fresh formal parameter per
register) if none is registered yet, as `updateBlocksMap` does for the entry
block and the jump builder does for targets. -/
def ensureBlock (st : DState) (off : Nat) : DState :=
  match lookupBlock st.jumpBlocks off with
  | some _ => st
  | none =>
    let ps := (List.range numRegisters).map (fun i => st.nextId + i)
    { st with jumpBlocks := st.jumpBlocks ++ [(off, { params := ps, ops := [] })],
              nextId := st.nextId + numRegisters }

/-- Modelled from the spec: `Deserialize::buildJmpOp` is defined in the
translation header, which is not under src/.  Per the spec's lowering table
an unconditional jump "resolves the statically known successor block for the
target offset and emits a branch passing the current register vector" (the
successor block is allocated and registered on first reference); a
conditional jump is "not lowered in this core", and the spec records the
reference behavior of silently skipping it as a known fidelity gap. -/
def buildJmpOp (st : DState) (cond : Option Nat) (target : Label) : DState :=
  match cond with
  | none =>
    let st1 := ensureBlock st target.lfrom
    (appendToCur st1 (.brIns target.lfrom) st1.registers).1
  | some _ => st

/-- `ebpfToebpfIRTranslation.cpp:20-31`, `Deserialize::createJmpOp`:
`assert(jmp.target.from > cur_label.from)` (only strictly forward jumps),
then look the target offset up in the first section
(`m_sections.front()` on an empty section list and `prog.at(...)` out of
range both terminate abnormally, modelled `none`) and
`assert(label.from == jmp.target.from)` before building the jump. -/
def createJmpOp (st : DState) (cond : Option Nat) (target : Label) (curLabel : Label) :
    Option DState :=
  if target.lfrom > curLabel.lfrom then
    match st.sections with
    | [] => none
    | prog :: _ =>
      match prog[target.lfrom]? with
      | none => none
      | some li =>
        if li.1.lfrom = target.lfrom then some (buildJmpOp st cond target)
        else none
  else none

/-- `ebpfToebpfIRTranslation.cpp:202-258`, `Deserialize::createMLIR`: print
the instruction's offset (`std::cerr << cur_label.from << " "`, line 203 —
emitted for *every* instruction), then dispatch on the instruction kind.
`Call`, `Callx`, `Packet`, `Assume`, `Atomic`, `Assert` and
`IncrementLoopCounter` print their kind name to `std::cerr`; `Undefined` and
`Exit` return without printing anything (their `std::cerr` lines are
commented out in the source) and without emitting any operation. -/
def createMLIR (st : DState) (ins : Instruction) (curLabel : Label) : Option DState :=
  let st0 := pushDiag st (toString curLabel.lfrom ++ " ")
  match ins with
  | .Undefined => some st0
  | .Bin op dst v => createBinaryOp st0 op dst v
  | .Un op dst => createUnaryOp st0 op dst
  | .LoadMapFd dst mapfd => createLoadMapOp st0 dst mapfd
  | .Call => some (pushDiag st0 "Call")
  | .Callx => some (pushDiag st0 "Callx")
  | .Exit => some st0
  | .Jmp cond target => createJmpOp st0 cond target curLabel
  | .Mem isLoad w base off v => createMemOp st0 isLoad w base off v
  | .Packet => some (pushDiag st0 "Packet")
  | .Assume => some (pushDiag st0 "Assume")
  | .Atomic => some (pushDiag st0 "Atomic")
  | .Assert => some (pushDiag st0 "Assert")
  | .IncrementLoopCounter => some (pushDiag st0 "IncrementLoopCounter")

/-- **C7** (code-bug exhibit).  The claim says every unsupported instruction
— `exit` among them — is reported as an explicit, observable diagnostic and
never silently dropped.  The code disagrees for `Exit`: its `std::cerr`
line is commented out (`ebpfToebpfIRTranslation.cpp:229`), so translating an
`Exit` emits no operation, changes no state, and prints only the offset
trace that *every* instruction prints — nothing identifies the dropped
instruction (first conjunct); `Call`, by contrast, does print its kind name
(second conjunct). -/
theorem claim7_exit_skipped_without_diagnostic (st : DState) (lbl : Label) :
    createMLIR st Instruction.Exit lbl =
      some { st with diags := st.diags ++ [toString lbl.lfrom ++ " "] } ∧
    createMLIR st Instruction.Call lbl =
      some { st with diags := st.diags ++ [toString lbl.lfrom ++ " ", "Call"] } := by
  constructor
  · rfl
  · simp [createMLIR, pushDiag]

/-- Witness for C7 at a concrete state: lifting an `Exit` at offset 3 leaves
a fresh state unchanged except for the offset trace. -/
theorem claim7_witness :
    createMLIR { sections := [], registers := [], jumpBlocks := [], curBlock := 0,
                 lastBlock := 0, nextId := 0, diags := [] } Instruction.Exit ⟨3, 4⟩ =
      some { sections := [], registers := [], jumpBlocks := [], curBlock := 0,
             lastBlock := 0, nextId := 0, diags := ["3 "] } :=
  (claim7_exit_skipped_without_diagnostic _ _).1

/-- Insertion into a sorted list (the comparison `std::sort` uses). -/
def insertAsc (x : Nat) : List Nat → List Nat
  | [] => [x]
  | y :: rest => if x ≤ y then x :: y :: rest else y :: insertAsc x rest

/-- `std::sort(m_startOfNextBlock.begin(), m_startOfNextBlock.end())`. -/
def sortAsc : List Nat → List Nat
  | [] => []
  | x :: rest => insertAsc x (sortAsc rest)

theorem mem_insertAsc (a x : Nat) (l : List Nat) :
    a ∈ insertAsc x l ↔ a = x ∨ a ∈ l := by
  induction l with
  | nil => simp [insertAsc]
  | cons y rest ih =>
    unfold insertAsc
    by_cases h : x ≤ y
    · simp [h]
    · simp [h, ih]
      tauto

theorem mem_sortAsc (a : Nat) (l : List Nat) : a ∈ sortAsc l ↔ a ∈ l := by
  induction l with
  | nil => simp [sortAsc]
  | cons x rest ih => simp [sortAsc, mem_insertAsc, ih]

theorem sorted_insertAsc (x : Nat) (l : List Nat) (h : l.Sorted (· ≤ ·)) :
    (insertAsc x l).Sorted (· ≤ ·) := by
  induction l with
  | nil => simp [insertAsc]
  | cons y rest ih =>
    rw [List.sorted_cons] at h
    unfold insertAsc
    by_cases hxy : x ≤ y
    · rw [if_pos hxy, List.sorted_cons]
      refine ⟨?_, List.sorted_cons.mpr h⟩
      intro b hb
      cases List.mem_cons.mp hb with
      | inl hby => exact hby ▸ hxy
      | inr hbr => exact le_trans hxy (h.1 b hbr)
    · rw [if_neg hxy, List.sorted_cons]
      refine ⟨?_, ih h.2⟩
      intro b hb
      cases (mem_insertAsc b x rest).mp hb with
      | inl hbx => exact hbx ▸ Nat.le_of_not_le hxy
      | inr hbr => exact h.1 b hbr

theorem sorted_sortAsc (l : List Nat) : (sortAsc l).Sorted (· ≤ ·) := by
  induction l with
  | nil => simp [sortAsc]
  | cons x rest ih => exact sorted_insertAsc x (sortAsc rest) ih

theorem nodup_insertAsc (x : Nat) (l : List Nat) (hx : x ∉ l) (h : l.Nodup) :
    (insertAsc x l).Nodup := by
  induction l with
  | nil => simp [insertAsc]
  | cons y rest ih =>
    unfold insertAsc
    rw [List.nodup_cons] at h
    by_cases hxy : x ≤ y
    · rw [if_pos hxy, List.nodup_cons, List.nodup_cons]
      refine ⟨?_, h⟩
      intro hmem
      cases List.mem_cons.mp hmem with
      | inl he => exact hx (he ▸ List.mem_cons_self y rest)
      | inr hr => exact hx (List.mem_cons_of_mem y hr)
    · rw [if_neg hxy, List.nodup_cons]
      have hxr : x ∉ rest := fun hc => hx (List.mem_cons_of_mem y hc)
      refine ⟨?_, ih hxr h.2⟩
      intro hmem
      cases (mem_insertAsc y x rest).mp hmem with
      | inl he => exact hx (he ▸ List.mem_cons_self y rest)
      | inr hr => exact h.1 hr

theorem nodup_sortAsc (l : List Nat) (h : l.Nodup) : (sortAsc l).Nodup := by
  induction l with
  | nil => simp [sortAsc]
  | cons x rest ih =>
    rw [List.nodup_cons] at h
    exact nodup_insertAsc x (sortAsc rest) (fun hc => h.1 ((mem_sortAsc x rest).mp hc)) (ih h.2)

/-- The accumulator of `Deserialize::collectBlocks`: the set of recorded jump
targets `m_jmpTargets`, the boundary list `m_startOfNextBlock` and the block
counter `m_numBlocks`. -/
structure BlockDiscovery where
  jmpTargets : List Nat
  startOfNextBlock : List Nat
  numBlocks : Nat
deriving DecidableEq, Repr

/-- Modelled from the spec: `Deserialize::incrementBlocks` is defined in the
translation header, which is not under src/.  It records a new block-boundary
offset in `m_jmpTargets` and `m_startOfNextBlock`; per the spec ("Collect the
set of boundary offsets, deduplicate, and sort ascending") an offset already
recorded is not recorded twice. -/
def incrementBlocks (st : BlockDiscovery) (jmpTo : Nat) : BlockDiscovery :=
  if jmpTo ∈ st.jmpTargets then st
  else { jmpTargets := jmpTo :: st.jmpTargets,
         startOfNextBlock := st.startOfNextBlock ++ [jmpTo],
         numBlocks := st.numBlocks + 1 }

/-- `ebpfToebpfIRTranslation.cpp:311-324`: the body of `collectBlocks`' loop
over labeled instructions: a jump records its target offset (guarded by
`m_jmpTargets.contains`), and a conditional jump additionally records the
offset of the instruction following it (`label.from + 1`). -/
def collectStep (st : BlockDiscovery) (li : LabeledInstruction) : BlockDiscovery :=
  match li.2 with
  | .Jmp cond target =>
    let st1 := if target.lfrom ∈ st.jmpTargets then st else incrementBlocks st target.lfrom
    match cond with
    | some _ => incrementBlocks st1 (li.1.lfrom + 1)
    | none => st1
  | _ => st

/-- `ebpfToebpfIRTranslation.cpp:309-328`, `Deserialize::collectBlocks`:
one scan over the first section, then
`std::sort(m_startOfNextBlock.begin(), m_startOfNextBlock.end())`. -/
def collectBlocks (prog : InstructionSeq) : List Nat :=
  sortAsc (prog.foldl collectStep
    { jmpTargets := [], startOfNextBlock := [], numBlocks := 0 }).startOfNextBlock

/-- The full set of block-owning offsets: `buildXDPFunction` registers the
entry block at offset 0 (`updateBlocksMap(body, 0)`,
`ebpfToebpfIRTranslation.cpp:344`) and the discovered boundaries own the
rest; `m_jumpBlocks` is a map, so an offset occurs at most once. -/
def allBoundaries (prog : InstructionSeq) : List Nat :=
  if 0 ∈ collectBlocks prog then collectBlocks prog else 0 :: collectBlocks prog

/-- Invariant of block discovery: the boundary list has no duplicates and
holds exactly the recorded target set. -/
def DiscInv (st : BlockDiscovery) : Prop :=
  st.startOfNextBlock.Nodup ∧ ∀ x, x ∈ st.startOfNextBlock ↔ x ∈ st.jmpTargets

theorem incrementBlocks_inv (st : BlockDiscovery) (y : Nat) (h : DiscInv st) :
    DiscInv (incrementBlocks st y) := by
  unfold incrementBlocks
  by_cases hy : y ∈ st.jmpTargets
  · rw [if_pos hy]; exact h
  · rw [if_neg hy]
    constructor
    · have hns : y ∉ st.startOfNextBlock := fun hc => hy ((h.2 y).mp hc)
      simp [List.nodup_append, h.1, hns]
    · intro x
      simp only [List.mem_append, List.mem_singleton, List.mem_cons]
      rw [h.2 x]
      tauto

theorem mem_incrementBlocks_self (st : BlockDiscovery) (y : Nat) :
    y ∈ (incrementBlocks st y).jmpTargets := by
  unfold incrementBlocks
  by_cases hy : y ∈ st.jmpTargets
  · rw [if_pos hy]; exact hy
  · rw [if_neg hy]; exact List.mem_cons_self y _

theorem mem_incrementBlocks_mono (st : BlockDiscovery) (x y : Nat)
    (h : x ∈ st.jmpTargets) : x ∈ (incrementBlocks st y).jmpTargets := by
  unfold incrementBlocks
  by_cases hy : y ∈ st.jmpTargets
  · rw [if_pos hy]; exact h
  · rw [if_neg hy]; exact List.mem_cons_of_mem y h

theorem collectStep_inv (st : BlockDiscovery) (li : LabeledInstruction)
    (h : DiscInv st) : DiscInv (collectStep st li) := by
  unfold collectStep
  match li with
  | (lbl, Instruction.Jmp cond target) =>
    cases cond with
    | none =>
      by_cases ht : target.lfrom ∈ st.jmpTargets
      · simpa [ht] using h
      · simpa [ht] using incrementBlocks_inv st target.lfrom h
    | some c =>
      by_cases ht : target.lfrom ∈ st.jmpTargets
      · simpa [ht] using incrementBlocks_inv st (lbl.lfrom + 1) h
      · simpa [ht] using
          incrementBlocks_inv (incrementBlocks st target.lfrom) (lbl.lfrom + 1)
            (incrementBlocks_inv st target.lfrom h)
  | (lbl, Instruction.Undefined) => exact h
  | (lbl, Instruction.Bin op dst v) => exact h
  | (lbl, Instruction.Un op dst) => exact h
  | (lbl, Instruction.LoadMapFd dst mapfd) => exact h
  | (lbl, Instruction.Call) => exact h
  | (lbl, Instruction.Callx) => exact h
  | (lbl, Instruction.Exit) => exact h
  | (lbl, Instruction.Mem a b c d e) => exact h
  | (lbl, Instruction.Packet) => exact h
  | (lbl, Instruction.Assume) => exact h
  | (lbl, Instruction.Atomic) => exact h
  | (lbl, Instruction.Assert) => exact h
  | (lbl, Instruction.IncrementLoopCounter) => exact h

theorem collectStep_mono (st : BlockDiscovery) (li : LabeledInstruction) (x : Nat)
    (h : x ∈ st.jmpTargets) : x ∈ (collectStep st li).jmpTargets := by
  unfold collectStep
  match li with
  | (lbl, Instruction.Jmp cond target) =>
    cases cond with
    | none =>
      by_cases ht : target.lfrom ∈ st.jmpTargets
      · simpa [ht] using h
      · simpa [ht] using mem_incrementBlocks_mono st x target.lfrom h
    | some c =>
      by_cases ht : target.lfrom ∈ st.jmpTargets
      · simpa [ht] using mem_incrementBlocks_mono st x (lbl.lfrom + 1) h
      · simpa [ht] using
          mem_incrementBlocks_mono (incrementBlocks st target.lfrom) x (lbl.lfrom + 1)
            (mem_incrementBlocks_mono st x target.lfrom h)
  | (lbl, Instruction.Undefined) => exact h
  | (lbl, Instruction.Bin op dst v) => exact h
  | (lbl, Instruction.Un op dst) => exact h
  | (lbl, Instruction.LoadMapFd dst mapfd) => exact h
  | (lbl, Instruction.Call) => exact h
  | (lbl, Instruction.Callx) => exact h
  | (lbl, Instruction.Exit) => exact h
  | (lbl, Instruction.Mem a b c d e) => exact h
  | (lbl, Instruction.Packet) => exact h
  | (lbl, Instruction.Assume) => exact h
  | (lbl, Instruction.Atomic) => exact h
  | (lbl, Instruction.Assert) => exact h
  | (lbl, Instruction.IncrementLoopCounter) => exact h

theorem foldl_collectStep_inv (prog : InstructionSeq) (st : BlockDiscovery)
    (h : DiscInv st) : DiscInv (prog.foldl collectStep st) := by
  induction prog generalizing st with
  | nil => exact h
  | cons li rest ih => exact ih _ (collectStep_inv st li h)

theorem foldl_collectStep_mono (prog : InstructionSeq) (st : BlockDiscovery) (x : Nat)
    (h : x ∈ st.jmpTargets) : x ∈ (prog.foldl collectStep st).jmpTargets := by
  induction prog generalizing st with
  | nil => exact h
  | cons li rest ih => exact ih _ (collectStep_mono st li x h)

theorem collectStep_records (st : BlockDiscovery) (lbl : Label) (cond : Option Nat)
    (target : Label) :
    target.lfrom ∈ (collectStep st (lbl, Instruction.Jmp cond target)).jmpTargets ∧
    (cond ≠ none →
      lbl.lfrom + 1 ∈ (collectStep st (lbl, Instruction.Jmp cond target)).jmpTargets) := by
  unfold collectStep
  cases cond with
  | none =>
    refine ⟨?_, fun hc => absurd rfl hc⟩
    by_cases ht : target.lfrom ∈ st.jmpTargets
    · simpa [ht] using ht
    · simpa [ht] using mem_incrementBlocks_self st target.lfrom
  | some c =>
    constructor
    · by_cases ht : target.lfrom ∈ st.jmpTargets
      · simpa [ht] using mem_incrementBlocks_mono st target.lfrom (lbl.lfrom + 1) ht
      · simpa [ht] using
          mem_incrementBlocks_mono (incrementBlocks st target.lfrom) target.lfrom
            (lbl.lfrom + 1) (mem_incrementBlocks_self st target.lfrom)
    · intro _
      by_cases ht : target.lfrom ∈ st.jmpTargets
      · simpa [ht] using mem_incrementBlocks_self st (lbl.lfrom + 1)
      · simpa [ht] using
          mem_incrementBlocks_self (incrementBlocks st target.lfrom) (lbl.lfrom + 1)

theorem foldl_records_jumps (prog : InstructionSeq) (st : BlockDiscovery)
    (lbl : Label) (cond : Option Nat) (target : Label)
    (h : ((lbl, Instruction.Jmp cond target) : LabeledInstruction) ∈ prog) :
    target.lfrom ∈ (prog.foldl collectStep st).jmpTargets ∧
    (cond ≠ none → lbl.lfrom + 1 ∈ (prog.foldl collectStep st).jmpTargets) := by
  induction prog generalizing st with
  | nil => cases h
  | cons li rest ih =>
    cases List.mem_cons.mp h with
    | inl he =>
      subst he
      refine ⟨?_, fun hc => ?_⟩
      · exact foldl_collectStep_mono rest _ _ (collectStep_records st lbl cond target).1
      · exact foldl_collectStep_mono rest _ _ ((collectStep_records st lbl cond target).2 hc)
    | inr hr => exact ih (collectStep st li) hr

theorem mem_collectBlocks_of_target (prog : InstructionSeq) (x : Nat)
    (hx : x ∈ (prog.foldl collectStep
      { jmpTargets := [], startOfNextBlock := [], numBlocks := 0 }).jmpTargets) :
    x ∈ collectBlocks prog := by
  unfold collectBlocks
  rw [mem_sortAsc]
  exact ((foldl_collectStep_inv prog _ ⟨List.nodup_nil, by simp⟩).2 x).mpr hx

theorem mem_allBoundaries_of_mem (prog : InstructionSeq) (x : Nat)
    (hx : x ∈ collectBlocks prog) : x ∈ allBoundaries prog := by
  unfold allBoundaries
  by_cases h0 : 0 ∈ collectBlocks prog
  · rw [if_pos h0]; exact hx
  · rw [if_neg h0]; exact List.mem_cons_of_mem 0 hx

/-- **C5** (confirmed; `incrementBlocks` is modelled from the spec).
Block-boundary discovery scans the section once (`collectBlocks` is a single
fold); every jump's target offset is a boundary and the offset following
every conditional jump is a boundary; the boundary offsets (the discovered
ones together with the entry offset 0, registered for the entry block by
`buildXDPFunction`) are sorted ascending, contain no duplicates, and always
include 0. -/
theorem claim5_boundary_discovery (prog : InstructionSeq) :
    (allBoundaries prog).Sorted (· ≤ ·) ∧ (allBoundaries prog).Nodup ∧
    0 ∈ allBoundaries prog ∧
    ∀ lbl cond tgt, ((lbl, Instruction.Jmp cond tgt) : LabeledInstruction) ∈ prog →
      tgt.lfrom ∈ allBoundaries prog ∧
      (cond ≠ none → lbl.lfrom + 1 ∈ allBoundaries prog) := by
  have hsorted : (collectBlocks prog).Sorted (· ≤ ·) := sorted_sortAsc _
  have hinv := foldl_collectStep_inv prog
    { jmpTargets := [], startOfNextBlock := [], numBlocks := 0 } ⟨List.nodup_nil, by simp⟩
  have hnodup : (collectBlocks prog).Nodup := nodup_sortAsc _ hinv.1
  refine ⟨?_, ?_, ?_, ?_⟩
  · unfold allBoundaries
    by_cases h0 : 0 ∈ collectBlocks prog
    · rw [if_pos h0]; exact hsorted
    · rw [if_neg h0, List.sorted_cons]
      exact ⟨fun b _ => Nat.zero_le b, hsorted⟩
  · unfold allBoundaries
    by_cases h0 : 0 ∈ collectBlocks prog
    · rw [if_pos h0]; exact hnodup
    · rw [if_neg h0, List.nodup_cons]
      exact ⟨h0, hnodup⟩
  · unfold allBoundaries
    by_cases h0 : 0 ∈ collectBlocks prog
    · rw [if_pos h0]; exact h0
    · rw [if_neg h0]; exact List.mem_cons_self 0 _
  · intro lbl cond tgt hmemP
    have hr := foldl_records_jumps prog
      { jmpTargets := [], startOfNextBlock := [], numBlocks := 0 } lbl cond tgt hmemP
    exact ⟨mem_allBoundaries_of_mem prog _ (mem_collectBlocks_of_target prog _ hr.1),
      fun hc => mem_allBoundaries_of_mem prog _
        (mem_collectBlocks_of_target prog _ (hr.2 hc))⟩

/-- A small section with a conditional jump at offset 1 targeting offset 3. -/
def demoProg5 : InstructionSeq :=
  [(⟨0, 1⟩, Instruction.Bin BinAluOp.MOV 1 (RegImm.imm 7)),
   (⟨1, 2⟩, Instruction.Jmp (some 0) ⟨3, 4⟩),
   (⟨2, 3⟩, Instruction.Bin BinAluOp.ADD 1 (RegImm.imm 1)),
   (⟨3, 4⟩, Instruction.Exit)]

/-- Witness for C5 at `demoProg5`: the entry offset, the conditional jump's
target 3 and its fallthrough 2 are all boundaries. -/
theorem claim5_witness :
    0 ∈ allBoundaries demoProg5 ∧ (3 : Nat) ∈ allBoundaries demoProg5 ∧
    (2 : Nat) ∈ allBoundaries demoProg5 := by
  have h := claim5_boundary_discovery demoProg5
  have hj := h.2.2.2 ⟨1, 2⟩ (some 0) ⟨3, 4⟩ (by decide)
  exact ⟨h.2.2.1, hj.1, hj.2 (by decide)⟩

/-- **C10** (confirmed).  `createJmpOp` accepts a jump exactly when it is
strictly forward (`assert(jmp.target.from > cur_label.from)`) and the
instruction found at index `target.from` of the first section carries a label
whose offset equals the target offset
(`assert(label.from == jmp.target.from)`); otherwise — backward or
self-targeting jump, mismatched label, missing section or out-of-range index
— lifting aborts instead of building a jump. -/
theorem claim10_forward_jump_guards (st : DState) (cond : Option Nat)
    (target curLabel : Label) :
    (createJmpOp st cond target curLabel).isSome = true ↔
      (target.lfrom > curLabel.lfrom ∧
       ∃ prog li, st.sections.head? = some prog ∧
         prog[target.lfrom]? = some li ∧ li.1.lfrom = target.lfrom) := by
  unfold createJmpOp
  by_cases hf : target.lfrom > curLabel.lfrom
  · rw [if_pos hf]
    cases hsec : st.sections with
    | nil => simp [hsec]
    | cons prog rest =>
      have hred : (match prog :: rest with
          | [] => none
          | prog :: _ =>
            match prog[target.lfrom]? with
            | none => none
            | some li =>
              if li.1.lfrom = target.lfrom then some (buildJmpOp st cond target)
              else none : Option DState) =
          (match prog[target.lfrom]? with
            | none => none
            | some li =>
              if li.1.lfrom = target.lfrom then some (buildJmpOp st cond target)
              else none : Option DState) := rfl
      rw [hred]
      cases hget : prog[target.lfrom]? with
      | none => simp [hf, hget]
      | some li =>
        have hred2 : (match some li with
            | none => none
            | some li =>
              if li.1.lfrom = target.lfrom then some (buildJmpOp st cond target)
              else none : Option DState) =
            (if li.1.lfrom = target.lfrom then some (buildJmpOp st cond target)
              else none) := rfl
        rw [hred2]
        by_cases hl : li.1.lfrom = target.lfrom
        · rw [if_pos hl]
          constructor
          · intro _
            exact ⟨hf, prog, li, rfl, hget, hl⟩
          · intro _
            rfl
        · rw [if_neg hl]
          constructor
          · intro hc
            exact Bool.noConfusion hc
          · rintro ⟨hf2, p2, li2, hp2, hg2, hl2⟩
            have hp2e : prog = p2 := by
              simpa using hp2
            rw [← hp2e, hget] at hg2
            cases hg2
            exact absurd hl2 hl
  · rw [if_neg hf]
    simp [hf]

/-- The single section of `demoSt10`: a `MOV` at offset 0 and an `Exit`
whose label offset 3 matches its index. -/
def demoProg10 : InstructionSeq :=
  [(⟨0, 1⟩, Instruction.Bin BinAluOp.MOV 1 (RegImm.imm 7)),
   (⟨1, 2⟩, Instruction.Undefined),
   (⟨2, 3⟩, Instruction.Undefined),
   (⟨3, 4⟩, Instruction.Exit)]

/-- A one-section state for exercising the jump guards. -/
def demoSt10 : DState :=
  { sections := [demoProg10],
    registers := List.replicate numRegisters 0, jumpBlocks := [], curBlock := 0,
    lastBlock := 0, nextId := 50, diags := [] }

/-- Witness for C10: a forward jump from offset 1 to the matching label at
offset 3 is accepted, by the guard characterization. -/
theorem claim10_witness :
    (createJmpOp demoSt10 none ⟨3, 4⟩ ⟨1, 2⟩).isSome = true :=
  (claim10_forward_jump_guards demoSt10 none ⟨3, 4⟩ ⟨1, 2⟩).mpr
    ⟨by decide, demoProg10, (⟨3, 4⟩, Instruction.Exit), by decide, by decide, by decide⟩

/-- The inner translation loop of `buildFunctionBody`
(`ebpfToebpfIRTranslation.cpp:276-280`), structurally recursive on the
number of instructions left in the range: fetch `prog.at(cur_op)` (an
out-of-range index terminates abnormally, `none`) and dispatch it through
`createMLIR`. -/
def translateGo (prog : InstructionSeq) : Nat → DState → Nat → Option DState
  | 0, st, _ => some st
  | n + 1, st, curOp =>
    match prog[curOp]? with
    | none => none
    | some li =>
      match createMLIR st li.2 li.1 with
      | none => none
      | some st2 => translateGo prog n st2 (curOp + 1)

/-- Translate every instruction of `[curOp, next)`. -/
def translateRange (st : DState) (prog : InstructionSeq) (curOp next : Nat) :
    Option DState :=
  translateGo prog (next - curOp) st curOp

/-- The operations of the block owning `off`. -/
def blockOpsAt (st : DState) (off : Nat) : Option (List MOp) :=
  (lookupBlock st.jumpBlocks off).map (fun b => b.ops)

/-- `curBlock->empty() || !curBlock->back().mightHaveTrait<IsTerminator>()`
(`ebpfToebpfIRTranslation.cpp:281-282`). -/
def needsFallthrough (ops : List MOp) : Bool :=
  match ops.getLast? with
  | none => true
  | some o => !(isTerminator o)

/-- `ebpfToebpfIRTranslation.cpp:266-290`: the body of the boundary loop of
`buildFunctionBody`, for one boundary `next`: look up the block owning
`cur_op` (`assert(m_jumpBlocks.contains(cur_op))`), reset the abstract
register file to that block's formal parameters, translate every instruction
in `[cur_op, next)`, and — if the block is empty or its last operation is not
a terminator — synthesize an unconditional branch to the block owning `next`
(`assert(m_jumpBlocks.contains(next))`), passing the *current* register
vector `m_registers`, and record that block as `m_lastBlock`.  Returns the
new state and the new `cur_op` (which equals `next`). -/
def processBoundary (st : DState) (prog : InstructionSeq) (curOp next : Nat) :
    Option (DState × Nat) :=
  match lookupBlock st.jumpBlocks curOp with
  | none => none
  | some blk =>
    match translateRange { st with curBlock := curOp, registers := blk.params }
        prog curOp next with
    | none => none
    | some st1 =>
      match blockOpsAt st1 curOp with
      | none => none
      | some ops =>
        if needsFallthrough ops then
          match lookupBlock st1.jumpBlocks next with
          | none => none
          | some _ =>
            let st2 := (appendToCur { st1 with curBlock := curOp }
              (.brIns next) st1.registers).1
            some ({ st2 with lastBlock := next }, next)
        else some (st1, next)

theorem lookupBlock_updateBlockOps (bs : List (Nat × MBlock)) (off : Nat) (op : MOp) :
    lookupBlock (updateBlockOps bs off op) off =
      (lookupBlock bs off).map (fun b => { b with ops := b.ops ++ [op] }) := by
  induction bs with
  | nil => rfl
  | cons e rest ih =>
    unfold updateBlockOps lookupBlock
    unfold updateBlockOps lookupBlock at ih
    by_cases he : e.1 = off
    · simp [he]
    · simp only [if_neg he, List.find?]
      rw [show (decide (e.1 = off)) = false from decide_eq_false he]
      simpa using ih

/-- **C6** (confirmed).  For a boundary range whose translated instructions
leave the owning block without a trailing terminator, `buildFunctionBody`
appends an unconditional branch targeting the block owning the next boundary
offset, whose arguments are the full register-file vector of the translated
state (`m_registers`, reflecting every update made while translating the
range), and records the successor as `m_lastBlock`. -/
theorem claim6_missing_terminator_gets_fallthrough_branch
    (st st1 : DState) (prog : InstructionSeq) (curOp next : Nat)
    (blk : MBlock) (ops1 : List MOp)
    (hcur : lookupBlock st.jumpBlocks curOp = some blk)
    (htr : translateRange { st with curBlock := curOp, registers := blk.params }
        prog curOp next = some st1)
    (hops : blockOpsAt st1 curOp = some ops1)
    (hnt : needsFallthrough ops1 = true)
    (hnext : (lookupBlock st1.jumpBlocks next).isSome = true) :
    ∃ st2, processBoundary st prog curOp next = some (st2, next) ∧
      blockOpsAt st2 curOp = some (ops1 ++
        [{ res := st1.nextId, kind := MKind.brIns next, args := st1.registers }]) ∧
      st2.lastBlock = next := by
  obtain ⟨nb, hnb⟩ := Option.isSome_iff_exists.mp hnext
  obtain ⟨b1, hb1, hb1ops⟩ : ∃ b1, lookupBlock st1.jumpBlocks curOp = some b1 ∧
      b1.ops = ops1 := by
    unfold blockOpsAt at hops
    cases hlb : lookupBlock st1.jumpBlocks curOp with
    | none => rw [hlb] at hops; cases hops
    | some b1 =>
      rw [hlb] at hops
      cases hops
      exact ⟨b1, rfl, rfl⟩
  refine ⟨{ (appendToCur { st1 with curBlock := curOp }
      (MKind.brIns next) st1.registers).1 with lastBlock := next }, ?_, ?_, rfl⟩
  · simp only [processBoundary, hcur, htr, hops, hnt, if_true, hnb]
  · unfold blockOpsAt appendToCur
    simp only []
    rw [lookupBlock_updateBlockOps]
    rw [show ({ st1 with curBlock := curOp } : DState).jumpBlocks = st1.jumpBlocks from rfl,
      hb1]
    simp [hb1ops]

/-- Entry block of the C6 demo, with one formal parameter per register. -/
def demoBlk0 : MBlock := { params := (List.range numRegisters).map (fun i => 100 + i), ops := [] }

/-- The block owning the next boundary offset 1 in the C6 demo. -/
def demoBlk1 : MBlock := { params := (List.range numRegisters).map (fun i => 200 + i), ops := [] }

/-- A one-instruction range: `r1 := r1 + 5` at offset 0 (not a terminator). -/
def demoProg6 : InstructionSeq := [(⟨0, 1⟩, Instruction.Bin BinAluOp.ADD 1 (RegImm.imm 5))]

/-- Lifter state before processing the boundary range `[0, 1)`. -/
def demoSt6 : DState :=
  { sections := [demoProg6], registers := List.replicate numRegisters 0,
    jumpBlocks := [(0, demoBlk0), (1, demoBlk1)], curBlock := 0, lastBlock := 0,
    nextId := 300, diags := [] }

/-- The operations the range translation leaves in block 0: the materialized
constant and the `ADD`. -/
def demoOps6 : List MOp :=
  [{ res := 300, kind := MKind.constIns 5, args := [] },
   { res := 301, kind := MKind.binIns BinAluOp.ADD, args := [101, 300] }]

/-- Block 0 after translating the range (no terminator emitted). -/
def demoBlk0After : MBlock :=
  { params := (List.range numRegisters).map (fun i => 100 + i), ops := demoOps6 }

/-- Lifter state after translating the range `[0, 1)`: register 1 now holds
the `ADD` result 301; no terminator was emitted. -/
def demoSt6After : DState :=
  { sections := [demoProg6],
    registers := [100, 301, 102, 103, 104, 105, 106, 107, 108, 109, 110],
    jumpBlocks := [(0, demoBlk0After), (1, demoBlk1)], curBlock := 0, lastBlock := 0,
    nextId := 302, diags := ["0 "] }

/-- Witness for C6 at the concrete demo: the boundary step appends
`br ^bb(next = 1)` carrying the translated register vector (note argument
position 1 holds the updated value 301) and records block 1 as the last
block. -/
theorem claim6_witness :
    ∃ st2, processBoundary demoSt6 demoProg6 0 1 = some (st2, 1) ∧
      blockOpsAt st2 0 = some (demoOps6 ++
        [{ res := demoSt6After.nextId, kind := MKind.brIns 1,
           args := demoSt6After.registers }]) ∧
      st2.lastBlock = 1 :=
  claim6_missing_terminator_gets_fallthrough_branch demoSt6 demoSt6After demoProg6 0 1
    demoBlk0 demoOps6 (by decide) (by decide) (by decide) (by decide) (by decide)

end Lifter
